import Mathlib

/-!
Shallow embedding of the ChatClient realtime core, translated from the
repository sources:

* `src/server/src/store.js` — the SQLite-backed `Store` (message ledger with
  bounded retention and paginated read).  Timestamps are modelled as naturals
  (ISO-8601 strings compare lexicographically, i.e. chronologically); the SQL
  `ORDER BY timestamp` is modelled as a stable sort by the pair
  `(timestamp, rowid)`, realised with `List.insertionSort`, and
  `ORDER BY timestamp DESC` as its reverse.
* `src/server/src/index.js` — the socket event handlers (`join-channel`,
  `leaveRoom`, `server-message`, `store-message`, `p2p-ready`, `p2p-signal`)
  over the in-memory `channelMembers` map, with emitted socket events
  reified as an explicit event list.
* the client message reducer (`messagesReducer`) from the App component.
* two components that the repository's `src/` snapshot does not contain
  (typing coordinator, attachment binding) are modelled from the spec and
  marked as such in their doc comments.

JavaScript `Map` objects are modelled as association lists (`lookupA`,
`setA`, `removeA` mirror `get`/`set`/`delete`, preserving insertion order),
`Set` objects as duplicate-free lists, and falsy checks on ids as a check
against `0` (absent payload fields are `Option.none`).
-/

namespace ChatClient

/-- `MAX_MESSAGES_PER_CHANNEL` from `src/server/src/defaultState.js`. -/
def MAX_MESSAGES_PER_CHANNEL : Nat := 200

/-- A persisted message row (`messages` table): fields relevant to the
claims.  `rowid` is the SQLite insertion rowid (strictly increasing). -/
structure Row where
  id : Nat
  serverId : Nat
  channelId : Nat
  timestamp : Nat
  rowid : Nat
deriving DecidableEq, Repr

/-- Order used for `ORDER BY timestamp ASC`: by timestamp, ties broken by
insertion rowid (the deterministic model of SQLite's tie behaviour). -/
def rowLe (a b : Row) : Prop :=
  a.timestamp < b.timestamp ∨ (a.timestamp = b.timestamp ∧ a.rowid ≤ b.rowid)

instance : DecidableRel rowLe := fun a b => by
  unfold rowLe; infer_instance

instance : IsTotal Row rowLe where
  total a b := by unfold rowLe; omega

instance : IsTrans Row rowLe where
  trans a b c hab hbc := by unfold rowLe at *; omega

/-- The persistent store: known channels (the `channels` table, as
`(server_id, id)` pairs) and the message rows in insertion order. -/
structure StoreState where
  channels : List (Nat × Nat)
  rows : List Row
  nextRowid : Nat
deriving DecidableEq, Repr

/-- `Store.getChannel` — `SELECT ... FROM channels WHERE server_id = ? AND id = ?`. -/
def getChannel (s : StoreState) (serverId channelId : Nat) : Bool :=
  s.channels.contains (serverId, channelId)

/-- `channelCountStmt` — `SELECT COUNT(*) FROM messages WHERE channel_id = ?`
(note: the count is keyed by `channel_id` only, not by server). -/
def channelCount (rows : List Row) (channelId : Nat) : Nat :=
  (rows.filter (fun r => r.channelId == channelId)).length

/-- `pruneMessagesStmt` — `DELETE FROM messages WHERE id IN (SELECT id FROM
messages WHERE channel_id = ? ORDER BY timestamp ASC LIMIT ?)`. -/
def pruneMessages (rows : List Row) (channelId k : Nat) : List Row :=
  let victims :=
    (((rows.filter (fun r => r.channelId == channelId)).insertionSort rowLe).take k).map Row.id
  rows.filter (fun r => !victims.contains r.id)

/-- The transaction body of `Store.addMessage`: insert the record, then
prune the oldest surplus rows whenever the channel count exceeds the cap
(`db.transaction` in `store.js`). -/
def addMessageRows (rows : List Row) (channelId : Nat) (r : Row) : List Row :=
  let rows1 := rows ++ [r]
  let currentCount := channelCount rows1 channelId
  if currentCount > MAX_MESSAGES_PER_CHANNEL then
    pruneMessages rows1 channelId (currentCount - MAX_MESSAGES_PER_CHANNEL)
  else rows1

/-- `Store.addMessage` (`src/server/src/store.js` lines 175-210): check the
channel exists, insert the record (`id = message.id || nanoid()`,
`timestamp = message.timestamp || now`) and prune atomically
(`addMessageRows`); finally re-select the inserted row by id.  `freshId`
stands for the `nanoid()` result and `now` for
`new Date().toISOString()`. -/
def addMessage (s : StoreState) (serverId channelId : Nat)
    (msgId ts : Option Nat) (freshId now : Nat) :
    Except String (StoreState × Option Row) :=
  if getChannel s serverId channelId = false then
    .error "Channel not found"
  else
    let r : Row :=
      { id := msgId.getD freshId, serverId := serverId, channelId := channelId,
        timestamp := ts.getD now, rowid := s.nextRowid }
    let rows2 := addMessageRows s.rows channelId r
    let inserted := rows2.find? (fun q => q.id == r.id)
    .ok ({ s with rows := rows2, nextRowid := s.nextRowid + 1 }, inserted)

/-- `Store.getMessages` (`src/server/src/store.js` lines 127-131):
`rowLimit = Math.max(1, Math.min(limit || MAX, MAX))`, then
`SELECT * ... ORDER BY timestamp DESC LIMIT rowLimit` and a final
`.reverse()`.  A `limit` of `0` is falsy in JavaScript, so it defaults to
`MAX_MESSAGES_PER_CHANNEL`. -/
def getMessages (s : StoreState) (serverId channelId : Nat) (limit : Nat) : List Row :=
  let rowLimit :=
    max 1 (min (if limit == 0 then MAX_MESSAGES_PER_CHANNEL else limit) MAX_MESSAGES_PER_CHANNEL)
  let chanRows := s.rows.filter (fun r => r.serverId == serverId && r.channelId == channelId)
  let descRows := (chanRows.insertionSort rowLe).reverse
  (descRows.take rowLimit).reverse

/-- One `addMessage` request: the draft fields a caller can supply. -/
structure AppendReq where
  serverId : Nat
  channelId : Nat
  msgId : Option Nat
  ts : Option Nat
  freshId : Nat
  now : Nat
deriving DecidableEq, Repr

/-- Effective stored id of a request (`message.id || nanoid()`). -/
def effId (q : AppendReq) : Nat := q.msgId.getD q.freshId

/-- Effective stored timestamp of a request (`message.timestamp || now`). -/
def effTs (q : AppendReq) : Nat := q.ts.getD q.now

/-- Run one append against the store, keeping the old state on error
(the caller catches the exception and the transaction rolls back). -/
def applyAppend (s : StoreState) (q : AppendReq) : StoreState :=
  match addMessage s q.serverId q.channelId q.msgId q.ts q.freshId q.now with
  | .ok (s', _) => s'
  | .error _ => s

/-- Run a sequence of appends. -/
def runAppends (s : StoreState) (qs : List AppendReq) : StoreState :=
  qs.foldl applyAppend s

/-- A store that knows a single channel and holds no messages. -/
def initStore (sv ch : Nat) : StoreState := ⟨[(sv, ch)], [], 0⟩

/-- The row a request inserts when given insertion rowid `rid`. -/
def reqRow (q : AppendReq) (rid : Nat) : Row :=
  ⟨effId q, q.serverId, q.channelId, effTs q, rid⟩

/-- The rows a request sequence inserts, with consecutive rowids. -/
def reqRows : Nat → List AppendReq → List Row
  | _, [] => []
  | rid, q :: rest => reqRow q rid :: reqRows (rid + 1) rest

/-! ### Association-list model of JavaScript `Map` -/

/-- `Map.get`. -/
def lookupA {α β : Type} [DecidableEq α] : List (α × β) → α → Option β
  | [], _ => none
  | (k, v) :: rest, a => if k = a then some v else lookupA rest a

/-- `Map.set`: replaces in place, appends new keys at the end (JavaScript
`Map` preserves insertion order). -/
def setA {α β : Type} [DecidableEq α] : List (α × β) → α → β → List (α × β)
  | [], a, b => [(a, b)]
  | (k, v) :: rest, a, b => if k = a then (a, b) :: rest else (k, v) :: setA rest a b

/-- `Map.delete`. -/
def removeA {α β : Type} [DecidableEq α] (m : List (α × β)) (a : α) : List (α × β) :=
  m.filter (fun p => decide (p.1 ≠ a))

/-! ### Socket layer (`src/server/src/index.js`) -/

/-- A room key, `roomKey(serverId, channelId)` (the template string
`serverId:channelId`, injective for well-formed ids). -/
abbrev RoomKey := Nat × Nat

/-- `roomKey` from `index.js`. -/
def roomKey (serverId channelId : Nat) : RoomKey := (serverId, channelId)

/-- A live socket connection: its id, the authenticated user's id
(`socket.data.user.id`), and `socket.data.currentRoom`. -/
structure Conn where
  sockId : Nat
  userId : Nat
  currentRoom : Option RoomKey
deriving DecidableEq, Repr

/-- A member profile as built by `buildMemberFromUser` (fields relevant to
the claims). -/
structure Member where
  socketId : Nat
  userId : Nat
deriving DecidableEq, Repr

/-- Per-room membership: `channelMembers : room -> Map<userId, Set<socketId>>`. -/
abbrev Membership := List (RoomKey × List (Nat × List Nat))

/-- The in-memory server state: the durable store, the live sockets, and the
`channelMembers` map. -/
structure ServerState where
  store : StoreState
  conns : List Conn
  channelMembers : Membership
deriving DecidableEq, Repr

/-- Events the handlers emit over socket.io, reified. -/
inductive EvType where
  | userJoined
  | userLeft
deriving DecidableEq, Repr

inductive Ev where
  | channelEvent (room : RoomKey) (type : EvType) (user : Member) (reason : Option String)
  | presenceUpdate (room : RoomKey) (members : List Member)
  | p2pTeardownTo (room : RoomKey) (exceptSock : Nat) (peerId : Nat)
  | p2pInit (dest : Nat) (room : RoomKey) (peerId : Nat) (peer : Member) (initiator : Bool)
  | p2pSignalEv (dest : Nat) (sender : Nat) (data : Nat)
  | messageEv (room : RoomKey) (message : Option Row)
deriving DecidableEq, Repr

/-- Acknowledgment callback payloads. -/
inductive Ack where
  | okJoin (alreadyJoined : Bool) (members : List Member)
  | okMsg (message : Option Row) (tempId : Option Nat)
  | okStored (message : Option Row)
  | err (error : String)
deriving DecidableEq, Repr

/-- Look up a live socket (`io.sockets.sockets.get`). -/
def connOf (st : ServerState) (sid : Nat) : Option Conn :=
  st.conns.find? (fun c => c.sockId == sid)

/-- Update a socket's `currentRoom`. -/
def setConnRoom (conns : List Conn) (sid : Nat) (room : Option RoomKey) : List Conn :=
  conns.map (fun c => if c.sockId = sid then { c with currentRoom := room } else c)

/-- `getMemberProfile`: resolve a socket id to its member profile (the
`clients` cache backed by `refreshSocketProfile`; a live socket always
resolves). -/
def memberProfile (st : ServerState) (sid : Nat) : Option Member :=
  match connOf st sid with
  | some c => some ⟨sid, c.userId⟩
  | none => none

/-- The `for (const socketId of socketIds) ... break` loop inside
`getPresenceMembers`: the first socket of the user that resolves. -/
def firstProfile (st : ServerState) : List Nat → Option Member
  | [] => none
  | sid :: rest =>
    match memberProfile st sid with
    | some m => some m
    | none => firstProfile st rest

/-- One presence entry per member user: first resolvable socket profile, with
the `userStore.findById` fallback (the user record always exists here). -/
def presenceEntry (st : ServerState) (uid : Nat) (socks : List Nat) : Option Member :=
  match firstProfile st socks with
  | some m => some m
  | none => some { socketId := socks.headD 0, userId := uid }

/-- `getPresenceMembers` (`index.js`): one member per distinct userId in the
room's membership map. -/
def getPresenceMembers (st : ServerState) (room : RoomKey) : List Member :=
  match lookupA st.channelMembers room with
  | none => []
  | some userMap => userMap.filterMap (fun p => presenceEntry st p.1 p.2)

/-- `listRoomSocketIds`: every socket id of every member user of the room. -/
def listRoomSocketIds (st : ServerState) (room : RoomKey) : List Nat :=
  match lookupA st.channelMembers room with
  | none => []
  | some userMap => userMap.flatMap Prod.snd

/-- The membership-map part of `leaveRoom`: delete the socket from the
user's set, dropping the user on last socket (`userLeft`), and dropping the
room when its map empties.  Returns the new map and the `userLeft` flag. -/
def leaveRoomCore (mem : Membership) (room : RoomKey) (uid sid : Nat) :
    Membership × Bool :=
  match lookupA mem room with
  | none => (mem, false)
  | some userMap =>
    let step :=
      match lookupA userMap uid with
      | none => (userMap, false)
      | some socks =>
        let socks' := socks.filter (fun s => decide (s ≠ sid))
        if socks'.isEmpty then (removeA userMap uid, true)
        else (setA userMap uid socks', false)
    let mem1 := if step.1.isEmpty then removeA mem room else setA mem room step.1
    (mem1, step.2)

/-- `leaveRoom` (`index.js` lines 511-544): no-op without a current room;
otherwise update membership, broadcast `user-left` only when the user's last
socket left (and the profile resolves), emit `p2p-teardown` to the rest of
the room, clear `currentRoom`, and emit the fresh presence snapshot. -/
def leaveRoom (st : ServerState) (sid : Nat) (reason : String) : ServerState × List Ev :=
  match connOf st sid with
  | none => (st, [])
  | some c =>
    match c.currentRoom with
    | none => (st, [])
    | some room =>
      let res := leaveRoomCore st.channelMembers room c.userId sid
      let profile := memberProfile st sid
      let st1 : ServerState :=
        { st with channelMembers := res.1, conns := setConnRoom st.conns sid none }
      let leftEvs :=
        match res.2, profile with
        | true, some p => [Ev.channelEvent room EvType.userLeft p (some reason)]
        | _, _ => []
      (st1, leftEvs ++
        [Ev.p2pTeardownTo room sid sid,
         Ev.presenceUpdate room (getPresenceMembers st1 room)])

/-- `socket.on('join-channel')` (`index.js` lines 570-622): validate the
payload, check the channel exists, early-return when already in the target
room, leave the previous room (`moved`), register the socket under the
user's id, broadcast `user-joined` only on the user's first socket in the
room, and emit the presence snapshot. -/
def joinChannel (st : ServerState) (sid : Nat) (serverId channelId : Nat) :
    ServerState × List Ev × Ack :=
  if serverId == 0 || channelId == 0 then
    (st, [], .err "Server and channel are required")
  else if getChannel st.store serverId channelId = false then
    (st, [], .err "Channel not found")
  else
    match connOf st sid with
    | none => (st, [], .err "Authentication required")
    | some c =>
      let room := roomKey serverId channelId
      if c.currentRoom = some room then
        (st, [], .okJoin true (getPresenceMembers st room))
      else
        let left := leaveRoom st sid "moved"
        let st1 := left.1
        let userMap := (lookupA st1.channelMembers room).getD []
        let socks := (lookupA userMap c.userId).getD []
        let firstJoin := socks.isEmpty
        let socks' := if socks.contains sid then socks else socks ++ [sid]
        let userMap' := setA userMap c.userId socks'
        let mem' := setA st1.channelMembers room userMap'
        let st2 : ServerState :=
          { st1 with channelMembers := mem', conns := setConnRoom st1.conns sid (some room) }
        let joinEvs :=
          match firstJoin, memberProfile st2 sid with
          | true, some p => [Ev.channelEvent room EvType.userJoined p none]
          | _, _ => []
        (st2, left.2 ++ joinEvs ++ [Ev.presenceUpdate room (getPresenceMembers st2 room)],
         .okJoin false (getPresenceMembers st2 room))

/-- JavaScript whitespace for `String.prototype.trim` (the characters that
occur in chat payloads). -/
def isWhitespaceChar (c : Char) : Bool :=
  c == ' ' || c == '\t' || c == '\n' || c == '\r'

/-- `content.trim()` — strip leading and trailing whitespace. -/
def jsTrim (s : String) : String :=
  String.mk (((s.toList.dropWhile isWhitespaceChar).reverse.dropWhile isWhitespaceChar).reverse)

/-- Payload of `server-message` / `store-message`. -/
structure MsgPayload where
  serverId : Nat
  channelId : Nat
  content : String
  tempId : Option Nat
  msgId : Option Nat
  timestamp : Option Nat
  attachments : List Nat
deriving DecidableEq, Repr

/-- `socket.on('server-message')` (`index.js` lines 628-665): reject missing
fields, reject senders not currently joined to the room, append with a
server-generated id and timestamp, broadcast the persisted message to the
room, and ack `{ok:true, message, tempId}`; a store error is returned
through the ack as `{ok:false, error}`. -/
def serverMessage (st : ServerState) (sid : Nat) (p : MsgPayload) (freshId now : Nat) :
    ServerState × List Ev × Ack :=
  let normalizedContent := jsTrim p.content
  if p.serverId == 0 || p.channelId == 0 ||
      (normalizedContent == "" && p.attachments.isEmpty) then
    (st, [], .err "Missing message fields")
  else
    match connOf st sid with
    | none => (st, [], .err "Authentication required")
    | some c =>
      if c.currentRoom ≠ some (roomKey p.serverId p.channelId) then
        (st, [], .err "Join the channel before sending messages")
      else
        match addMessage st.store p.serverId p.channelId none none freshId now with
        | .ok res =>
          ({ st with store := res.1 },
           [Ev.messageEv (roomKey p.serverId p.channelId) res.2],
           .okMsg res.2 p.tempId)
        | .error e => (st, [], .err e)

/-- `socket.on('store-message')` (`index.js` lines 667-696): out-of-band
persistence for P2P-delivered messages.  Validates the payload and the
authentication only — there is no `currentRoom` check — then appends with
the client-supplied id and timestamp and acks `{ok:true, message}`.  No
broadcast is emitted. -/
def storeMessage (st : ServerState) (sid : Nat) (p : MsgPayload) (freshId now : Nat) :
    ServerState × List Ev × Ack :=
  let normalizedContent := jsTrim p.content
  if p.serverId == 0 || p.channelId == 0 ||
      (normalizedContent == "" && p.attachments.isEmpty) then
    (st, [], .err "Invalid payload")
  else
    match connOf st sid with
    | none => (st, [], .err "Authentication required")
    | some _ =>
      match addMessage st.store p.serverId p.channelId p.msgId p.timestamp freshId now with
      | .ok res => ({ st with store := res.1 }, [], .okStored res.2)
      | .error e => (st, [], .err e)

/-- `socket.on('p2p-ready')` (`index.js` lines 698-731): when the declaring
socket is in the room, for every other socket currently present emit a
paired `p2p-init` introduction — `initiator: true` is delivered to the
existing peer (about the newly ready socket) and `initiator: false` to the
newly ready socket (about the existing peer). -/
def p2pReady (st : ServerState) (sid : Nat) (serverId channelId : Nat) : List Ev :=
  if serverId == 0 || channelId == 0 then []
  else
    let room := roomKey serverId channelId
    match connOf st sid with
    | none => []
    | some c =>
      if c.currentRoom ≠ some room then []
      else
        match memberProfile st sid with
        | none => []
        | some selfProfile =>
          ((listRoomSocketIds st room).filter (fun i => decide (i ≠ sid))).flatMap
            (fun peerId =>
              match memberProfile st peerId with
              | none => []
              | some peerProfile =>
                [Ev.p2pInit peerId room sid selfProfile true,
                 Ev.p2pInit sid room peerId peerProfile false])

/-- `socket.on('p2p-signal')` (`index.js` lines 733-746): drop when target
or data is absent, drop when the *sender* is not in the payload's room, and
otherwise relay the data verbatim to the target socket id — the target's
own membership is never checked. -/
def p2pSignal (st : ServerState) (sid : Nat) (target data : Option Nat)
    (serverId channelId : Nat) : List Ev :=
  match target, data with
  | some t, some d =>
    let room := roomKey serverId channelId
    match connOf st sid with
    | none => []
    | some c =>
      if c.currentRoom = some room then [Ev.p2pSignalEv t sid d] else []
  | _, _ => []

/-! ### Client message store (`messagesReducer` in the App component) -/

/-- A client-side message entry: its id plus the fields the `error` action
touches (the remaining payload is abstracted as `body`). -/
structure CMsg where
  id : Nat
  body : Nat
  pending : Bool
  error : Option Nat
deriving DecidableEq, Repr

/-- The reducer's action type. -/
inductive MsgAction where
  | setHistory (serverId channelId : Nat) (messages : List CMsg)
  | add (serverId channelId : Nat) (message : CMsg)
  | replace (serverId channelId : Nat) (tempId : Nat) (message : CMsg)
  | error (serverId channelId : Nat) (id : Nat) (err : Nat)
  | reset
deriving DecidableEq, Repr

/-- `channelKey(serverId, channelId)`. -/
def channelKey (serverId channelId : Nat) : Nat × Nat := (serverId, channelId)

/-- `MessagesState = Record<string, Message[]>`. -/
abbrev MessagesState := List ((Nat × Nat) × List CMsg)

/-- `dedupeMessages`: keep the first occurrence of each id. -/
def dedupeGo (seen : List Nat) : List CMsg → List CMsg
  | [] => []
  | m :: rest =>
    if seen.contains m.id then dedupeGo seen rest
    else m :: dedupeGo (m.id :: seen) rest

/-- `dedupeMessages` from the App component. -/
def dedupeMessages (messages : List CMsg) : List CMsg :=
  dedupeGo [] messages

/-- `messagesReducer` (client App component, `src/unnamed/part_002` lines
615-662): `add` is a no-op when the id is already present; `replace`
substitutes the server message for the temp entry when the temp id is
present and appends otherwise; `error` marks the entry in place. -/
def messagesReducer (state : MessagesState) (action : MsgAction) : MessagesState :=
  match action with
  | .reset => []
  | .setHistory sv ch msgs => setA state (channelKey sv ch) (dedupeMessages msgs)
  | .add sv ch m =>
    let existing := (lookupA state (channelKey sv ch)).getD []
    if existing.any (fun x => x.id == m.id) then state
    else setA state (channelKey sv ch) (existing ++ [m])
  | .replace sv ch tempId m =>
    let existing := (lookupA state (channelKey sv ch)).getD []
    if !(existing.any (fun x => x.id == tempId)) then
      setA state (channelKey sv ch) (existing ++ [m])
    else
      setA state (channelKey sv ch)
        (existing.map (fun x => if x.id == tempId then m else x))
  | .error sv ch i e =>
    let existing := (lookupA state (channelKey sv ch)).getD []
    setA state (channelKey sv ch)
      (existing.map (fun x => if x.id == i then { x with error := some e, pending := false } else x))

/-! ### Typing coordinator -/

/-- One typing entry: a user and the instant its timer lapses. -/
structure TypingEntry where
  userId : Nat
  expiresAt : Nat
deriving DecidableEq, Repr

/-- Modelled from the spec: per-room typing state, `Room -> set<userId>`
with a per-user expiry timestamp (spec §3, §4.6).  The server-side
typing-start/typing-stop handlers and the expiry sweep are not present
under `src/` (only the client consumer `handleTypingUpdate` and the event
names are), so the coordinator is modelled from the spec's words. -/
abbrev TypingState := List (RoomKey × List TypingEntry)

/-- A `typing-update` broadcast: the room and its current typers. -/
inductive TypingEv where
  | typingUpdate (room : RoomKey) (typers : List Nat)
deriving DecidableEq, Repr

/-- The set of typing users of a room. -/
def typersOf (ts : TypingState) (room : RoomKey) : List Nat :=
  ((lookupA ts room).getD []).map TypingEntry.userId

/-- Modelled from the spec: `start(room, userId)` inserts/refreshes the
expiry timer, broadcasting only when the set of typing users changes
(a refresh-only update emits nothing). -/
def typingStart (ts : TypingState) (room : RoomKey) (u now ttl : Nat) :
    TypingState × List TypingEv :=
  let entries := (lookupA ts room).getD []
  let isNew := !(entries.any (fun e => e.userId == u))
  let entries' :=
    if isNew then entries ++ [⟨u, now + ttl⟩]
    else entries.map (fun e => if e.userId == u then ⟨u, now + ttl⟩ else e)
  let ts' := setA ts room entries'
  (ts', if isNew then [TypingEv.typingUpdate room (typersOf ts' room)] else [])

/-- Modelled from the spec: `stop(room, userId)` removes immediately,
broadcasting only when the user was present. -/
def typingStop (ts : TypingState) (room : RoomKey) (u : Nat) :
    TypingState × List TypingEv :=
  let entries := (lookupA ts room).getD []
  let entries' := entries.filter (fun e => decide (e.userId ≠ u))
  let ts' := setA ts room entries'
  (ts', if entries'.length == entries.length then []
        else [TypingEv.typingUpdate room (entries'.map TypingEntry.userId)])

/-- The entries of a room that survive a sweep at instant `now`: an entry
has lapsed once `TYPING_TTL` of inactivity has passed, i.e. when
`now ≥ expiresAt`. -/
def sweepRoom (entries : List TypingEntry) (now : Nat) : List TypingEntry :=
  entries.filter (fun e => now < e.expiresAt)

/-- Modelled from the spec: the background sweep expires entries whose
timer has lapsed without an explicit stop, emitting a `typing-update` for a
room only when its set of typing users actually changes. -/
def typingSweep (ts : TypingState) (now : Nat) : TypingState × List TypingEv :=
  (ts.map (fun p => (p.1, sweepRoom p.2 now)),
   ts.filterMap (fun p =>
     let kept := sweepRoom p.2 now
     if kept.length == p.2.length then none
     else some (TypingEv.typingUpdate p.1 (kept.map TypingEntry.userId))))

/-! ### Attachment association -/

/-- An uploaded attachment: owner and the message it is bound to, if any. -/
structure Attachment where
  id : Nat
  uploaderId : Nat
  messageId : Option Nat
deriving DecidableEq, Repr

/-- A ledger with attachments. -/
structure LedgerState where
  rows : List Row
  attachments : List Attachment
deriving DecidableEq, Repr

/-- Modelled from the spec: `append(room, draftMessage)` "associates any
referenced attachments (failing with `AttachmentConflict` if an attachment
is already bound to a different message or owned by a different uploader),
and atomically enforces the retention cap ... in the same transaction as
the insert" (spec §4.3).  The `Store` revision containing the attachment
tables (`createUpload` / `getAttachmentById` referenced by `index.js`) is
not under `src/`, so the binding step is modelled from the spec; the
retention step reuses the embedded `pruneMessages`. -/
def appendWithAttachments (st : LedgerState) (serverId channelId : Nat)
    (msgId uploaderId : Nat) (refs : List Nat) (ts : Nat) :
    Except String LedgerState :=
  let conflict := refs.any (fun ref =>
    st.attachments.any (fun a =>
      a.id == ref &&
        ((a.messageId.isSome && a.messageId != some msgId) || a.uploaderId != uploaderId)))
  if conflict then .error "AttachmentConflict"
  else
    let atts' := st.attachments.map (fun a =>
      if refs.contains a.id then { a with messageId := some msgId } else a)
    let rows1 := st.rows ++ [⟨msgId, serverId, channelId, ts, st.rows.length⟩]
    let cnt := channelCount rows1 channelId
    let rows2 :=
      if cnt > MAX_MESSAGES_PER_CHANNEL then
        pruneMessages rows1 channelId (cnt - MAX_MESSAGES_PER_CHANNEL)
      else rows1
    .ok ⟨rows2, atts'⟩

/-! ### Derived views and concrete fixtures -/

/-- The channel's rows in `ORDER BY timestamp ASC` order (ties by rowid). -/
def sortedChanRows (s : StoreState) (serverId channelId : Nat) : List Row :=
  (s.rows.filter (fun r => r.serverId == serverId && r.channelId == channelId)).insertionSort rowLe

/-- Whether a `typing-update` broadcast is about the given room. -/
def isUpdateFor (room : RoomKey) : TypingEv → Bool
  | .typingUpdate rm _ => decide (rm = room)

/-- A store knowing channel `(1, 1)` and holding one message. -/
def storeWithOne : StoreState := ⟨[(1, 1)], [⟨7, 1, 1, 100, 0⟩], 1⟩

/-- 201 appends to channel `(1, 1)`: ids `0..200`, timestamps increasing
except the last one, which is older than all of them (a client-supplied
timestamp, as `store-message` permits). -/
def cexQs : List AppendReq :=
  (List.range 201).map (fun i =>
    { serverId := 1, channelId := 1, msgId := some i,
      ts := some (if i == 200 then 5 else 1000 + i), freshId := i, now := 0 })

/-- Sockets 1 (user 10, in room (1,1)) and 2 (user 20, in room (9,9)). -/
def signalCexState : ServerState :=
  ⟨initStore 1 1,
   [⟨1, 10, some (1, 1)⟩, ⟨2, 20, some (9, 9)⟩],
   [((1, 1), [(10, [1])]), ((9, 9), [(20, [2])])]⟩

/-- Sockets 1 (user 10) and 2 (user 20), both in room (1,1). -/
def readyCexState : ServerState :=
  ⟨initStore 1 1,
   [⟨1, 10, some (1, 1)⟩, ⟨2, 20, some (1, 1)⟩],
   [((1, 1), [(10, [1]), (20, [2])])]⟩

/-- User 10 with two sockets 1 and 2 in room (1,1); socket 3 is user 10's
third device, not yet joined anywhere; socket 4 is user 20 alone in (1,1). -/
def twoConnState : ServerState :=
  ⟨initStore 1 1,
   [⟨1, 10, some (1, 1)⟩, ⟨2, 10, some (1, 1)⟩, ⟨3, 10, none⟩, ⟨4, 20, some (1, 1)⟩],
   [((1, 1), [(10, [1, 2]), (20, [4])])]⟩

/-- A valid `server-message` / `store-message` payload for channel (1,1). -/
def okPayload : MsgPayload :=
  { serverId := 1, channelId := 1, content := "hi", tempId := some 99,
    msgId := some 55, timestamp := some 123, attachments := [] }

/-- Consistency of the membership map with the live sockets: every socket
id registered under a user in `channelMembers` belongs (when it resolves
at all) to a connection of that same user.  The server maintains this by
construction: `join-channel` registers `socket.id` under
`socket.data.user.id`. -/
def memWF (st : ServerState) : Bool :=
  st.channelMembers.all (fun p =>
    p.2.all (fun q =>
      q.2.all (fun sid =>
        match st.conns.find? (fun c => c.sockId == sid) with
        | some c => c.userId == q.1
        | none => true)))

/-! ## Lemmas -/

/-! ### Association lists -/

theorem lookupA_setA_self {α β : Type} [DecidableEq α] (m : List (α × β)) (k : α) (v : β) :
    lookupA (setA m k v) k = some v := by
  induction m with
  | nil => simp [setA, lookupA]
  | cons p rest ih =>
    by_cases h : p.1 = k
    · simp [setA, h, lookupA]
    · simp [setA, h, lookupA, ih]

theorem lookupA_setA_ne {α β : Type} [DecidableEq α] (m : List (α × β)) (k k' : α) (v : β)
    (h : k' ≠ k) : lookupA (setA m k v) k' = lookupA m k' := by
  induction m with
  | nil => simp [setA, lookupA, Ne.symm h]
  | cons p rest ih =>
    obtain ⟨pk, pv⟩ := p
    by_cases hp : pk = k
    · subst hp
      simp [setA, lookupA, Ne.symm h]
    · by_cases hp' : pk = k'
      · simp [setA, lookupA, hp', h]
      · simp [setA, hp, lookupA, hp', ih]

theorem lookupA_mem {α β : Type} [DecidableEq α] {m : List (α × β)} {k : α} {v : β}
    (h : lookupA m k = some v) : (k, v) ∈ m := by
  induction m with
  | nil => simp [lookupA] at h
  | cons p rest ih =>
    obtain ⟨pk, pv⟩ := p
    by_cases hp : pk = k
    · subst hp
      have hv : pv = v := by simpa [lookupA] using h
      subst hv
      exact List.mem_cons_self _ _
    · simp only [lookupA, if_neg hp] at h
      exact List.mem_cons_of_mem _ (ih h)

theorem lookupA_map_snd {α β γ : Type} [DecidableEq α] (m : List (α × β)) (g : β → γ) (k : α) :
    lookupA (m.map (fun p => (p.1, g p.2))) k = (lookupA m k).map g := by
  induction m with
  | nil => simp [lookupA]
  | cons p rest ih =>
    by_cases hp : p.1 = k
    · simp [lookupA, hp]
    · simp [lookupA, hp, ih]

theorem mem_keys_setA {α β : Type} [DecidableEq α] (m : List (α × β)) (k a : α) (v : β) :
    a ∈ (setA m k v).map Prod.fst ↔ a ∈ m.map Prod.fst ∨ a = k := by
  induction m with
  | nil => simp [setA]
  | cons p rest ih =>
    obtain ⟨pk, pv⟩ := p
    by_cases hp : pk = k
    · subst hp
      simp [setA]
      tauto
    · simp only [setA, hp, if_neg, if_false, List.map_cons, List.mem_cons, ih]
      tauto

theorem nodup_keys_setA {α β : Type} [DecidableEq α] (m : List (α × β)) (k : α) (v : β)
    (h : (m.map Prod.fst).Nodup) : ((setA m k v).map Prod.fst).Nodup := by
  induction m with
  | nil => simp [setA]
  | cons p rest ih =>
    obtain ⟨pk, pv⟩ := p
    simp only [List.map_cons, List.nodup_cons] at h
    by_cases hp : pk = k
    · subst hp
      simpa [setA] using h
    · simp only [setA, hp, if_neg, if_false, List.map_cons, List.nodup_cons]
      refine ⟨fun hc => ?_, ih h.2⟩
      rcases (mem_keys_setA rest k pk v).mp hc with hm | he
      · exact h.1 hm
      · exact hp he

/-! ### List takeRight -/

theorem reverse_take_reverse (l : List Row) (n : Nat) :
    (l.reverse.take n).reverse = l.drop (l.length - n) := by
  rw [List.take_reverse, List.reverse_reverse]

/-! ### C3: the ledger read -/

/-- C3 (amended): for every room and every limit `≥ 1`, `Store.getMessages`
returns the most recent `min(limit, maxRetention)` entries of the channel
(the tail of the timestamp-ascending ordering), ordered oldest-to-newest,
hence at most `min(limit, maxRetention)` entries.  The original claim's
`limit = 0` case is false: `0` is falsy in JavaScript, so the limit
defaults to `MAX_MESSAGES_PER_CHANNEL` (see the counterexample). -/
theorem getMessages_read_contract (s : StoreState) (serverId channelId limit : Nat)
    (hlim : 1 ≤ limit) :
    getMessages s serverId channelId limit =
      (sortedChanRows s serverId channelId).drop
        ((sortedChanRows s serverId channelId).length - min limit MAX_MESSAGES_PER_CHANNEL) ∧
    (getMessages s serverId channelId limit).length ≤ min limit MAX_MESSAGES_PER_CHANNEL ∧
    List.Pairwise rowLe (getMessages s serverId channelId limit) := by
  have hne : (limit == 0) = false := by
    simp only [beq_eq_false_iff_ne, ne_eq]
    omega
  have hone : 1 ≤ min limit MAX_MESSAGES_PER_CHANNEL := by
    have : 1 ≤ MAX_MESSAGES_PER_CHANNEL := by norm_num [MAX_MESSAGES_PER_CHANNEL]
    omega
  have heq : getMessages s serverId channelId limit =
      (sortedChanRows s serverId channelId).drop
        ((sortedChanRows s serverId channelId).length - min limit MAX_MESSAGES_PER_CHANNEL) := by
    unfold getMessages sortedChanRows
    simp only [hne, Bool.false_eq_true, if_false]
    rw [Nat.max_eq_right hone]
    exact reverse_take_reverse _ _
  refine ⟨heq, ?_, ?_⟩
  · rw [heq, List.length_drop]
    omega
  · rw [heq]
    exact List.Pairwise.sublist (List.drop_sublist _ _)
      (List.sorted_insertionSort rowLe _)

/-- C3 counterexample: with one stored message, `getMessages` at
`limit = 0` returns that message — one entry, not at most
`min(0, maxRetention) = 0` entries as the claim requires. -/
theorem getMessages_limit_zero_cex :
    getMessages storeWithOne 1 1 0 = [⟨7, 1, 1, 100, 0⟩] ∧
    ¬ ((getMessages storeWithOne 1 1 0).length ≤ min 0 MAX_MESSAGES_PER_CHANNEL) := by
  decide

/-- Witness for `getMessages_read_contract` at a concrete store and limit. -/
theorem getMessages_read_contract_witness :
    1 ≤ 1 ∧
    (getMessages storeWithOne 1 1 1 =
      (sortedChanRows storeWithOne 1 1).drop
        ((sortedChanRows storeWithOne 1 1).length - min 1 MAX_MESSAGES_PER_CHANNEL) ∧
    (getMessages storeWithOne 1 1 1).length ≤ min 1 MAX_MESSAGES_PER_CHANNEL ∧
    List.Pairwise rowLe (getMessages storeWithOne 1 1 1)) :=
  ⟨by decide, getMessages_read_contract storeWithOne 1 1 1 (by decide)⟩

/-! ### C6: the signaling relay -/

/-- C6 (amended): a `p2p-signal` payload is relayed verbatim to the target
socket id exactly when the target and data fields are present and the
*sender's* current room equals the payload's room; the target's membership
is never checked (a target that left the room still receives the payload —
see the counterexample), and a failed check drops the payload silently
(empty event list, no error ack). -/
theorem p2pSignal_relay_contract (st : ServerState) (sid t d serverId channelId : Nat)
    (c : Conn) (hc : connOf st sid = some c) :
    (p2pSignal st sid (some t) (some d) serverId channelId =
      (if c.currentRoom = some (roomKey serverId channelId)
       then [Ev.p2pSignalEv t sid d] else [])) ∧
    (∀ target data : Option Nat,
      p2pSignal st sid target data serverId channelId ≠ [] →
      ∃ t' d', target = some t' ∧ data = some d' ∧
        c.currentRoom = some (roomKey serverId channelId) ∧
        p2pSignal st sid target data serverId channelId = [Ev.p2pSignalEv t' sid d']) := by
  constructor
  · unfold p2pSignal
    rw [hc]
  · intro target data hne
    match target, data with
    | none, _ => simp [p2pSignal] at hne
    | some t', none => simp [p2pSignal] at hne
    | some t', some d' =>
      refine ⟨t', d', rfl, rfl, ?_, ?_⟩
      · by_contra hroom
        simp [p2pSignal, hc, hroom] at hne
      · have hroom : c.currentRoom = some (roomKey serverId channelId) := by
          by_contra hroom
          simp [p2pSignal, hc, hroom] at hne
        simp [p2pSignal, hc, hroom]

/-- C6 counterexample: socket 2 is connected but a member of room (9,9),
not of room (1,1); a signal from socket 1 (in room (1,1)) targeting socket
2 is relayed anyway, where the claim requires it to be dropped. -/
theorem p2pSignal_target_not_in_room_cex :
    p2pSignal signalCexState 1 (some 2) (some 42) 1 1 = [Ev.p2pSignalEv 2 1 42] ∧
    connOf signalCexState 2 = some ⟨2, 20, some (9, 9)⟩ ∧
    listRoomSocketIds signalCexState (roomKey 1 1) = [1] := by
  decide

/-- Witness for `p2pSignal_relay_contract` at a concrete state. -/
theorem p2pSignal_relay_contract_witness :
    connOf signalCexState 1 = some ⟨1, 10, some (1, 1)⟩ ∧
    ((p2pSignal signalCexState 1 (some 2) (some 42) 1 1 =
      (if Conn.currentRoom ⟨1, 10, some (1, 1)⟩ = some (roomKey 1 1)
       then [Ev.p2pSignalEv 2 1 42] else [])) ∧
    (∀ target data : Option Nat,
      p2pSignal signalCexState 1 target data 1 1 ≠ [] →
      ∃ t' d', target = some t' ∧ data = some d' ∧
        Conn.currentRoom ⟨1, 10, some (1, 1)⟩ = some (roomKey 1 1) ∧
        p2pSignal signalCexState 1 target data 1 1 = [Ev.p2pSignalEv t' 1 d'])) :=
  ⟨by decide, p2pSignal_relay_contract signalCexState 1 2 42 1 1 ⟨1, 10, some (1, 1)⟩ (by decide)⟩

/-! ### C5: the p2p-ready introductions -/

theorem sum_map_two_if (l : List Nat) (q : Nat → Bool) :
    (l.map (fun a => if q a then 2 else 0)).sum = 2 * l.countP q := by
  induction l with
  | nil => simp
  | cons a rest ih =>
    by_cases hq : q a
    · simp [List.countP_cons, hq, ih]
      omega
    · simp [List.countP_cons, hq, ih]

/-- C5 (amended): a `p2p-ready` declaration by a connection in its room
emits one paired `p2p-init` introduction per other present (resolvable)
socket, but with roles reversed from the original claim: each *existing*
peer receives `initiator: true` (it initiates toward the newly ready
connection), and the newly ready connection receives `initiator: false`
for each existing peer.  Every `initiator: true` event is addressed to an
existing peer and is about the ready socket, and every `initiator: false`
event is addressed to the ready socket. -/
theorem p2pReady_introductions (st : ServerState) (sid serverId channelId : Nat) (c : Conn)
    (hsv : serverId ≠ 0) (hch : channelId ≠ 0)
    (hc : connOf st sid = some c)
    (hroom : c.currentRoom = some (roomKey serverId channelId)) :
    (∀ p ∈ (listRoomSocketIds st (roomKey serverId channelId)).filter
        (fun i => decide (i ≠ sid)),
      ∀ pp, memberProfile st p = some pp →
        Ev.p2pInit p (roomKey serverId channelId) sid ⟨sid, c.userId⟩ true
            ∈ p2pReady st sid serverId channelId ∧
        Ev.p2pInit sid (roomKey serverId channelId) p pp false
            ∈ p2pReady st sid serverId channelId) ∧
    (∀ dest rm pid peer ini,
      Ev.p2pInit dest rm pid peer ini ∈ p2pReady st sid serverId channelId →
        rm = roomKey serverId channelId ∧
        (ini = true → pid = sid ∧ dest ≠ sid) ∧
        (ini = false → dest = sid ∧ pid ≠ sid)) ∧
    (p2pReady st sid serverId channelId).length =
      2 * ((listRoomSocketIds st (roomKey serverId channelId)).filter
            (fun i => decide (i ≠ sid))).countP (fun p => (memberProfile st p).isSome) := by
  have hsv' : (serverId == 0) = false := by simpa using hsv
  have hch' : (channelId == 0) = false := by simpa using hch
  have hself : memberProfile st sid = some ⟨sid, c.userId⟩ := by
    unfold memberProfile
    rw [hc]
  have hready : p2pReady st sid serverId channelId =
      ((listRoomSocketIds st (roomKey serverId channelId)).filter
          (fun i => decide (i ≠ sid))).flatMap
        (fun peerId =>
          match memberProfile st peerId with
          | none => []
          | some peerProfile =>
            [Ev.p2pInit peerId (roomKey serverId channelId) sid ⟨sid, c.userId⟩ true,
             Ev.p2pInit sid (roomKey serverId channelId) peerId peerProfile false]) := by
    unfold p2pReady
    rw [hc, hself]
    simp [hsv', hch', hroom]
  refine ⟨?_, ?_, ?_⟩
  · intro p hp pp hpp
    constructor
    · rw [hready]
      exact List.mem_flatMap.mpr ⟨p, hp, by rw [hpp]; simp⟩
    · rw [hready]
      exact List.mem_flatMap.mpr ⟨p, hp, by rw [hpp]; simp⟩
  · intro dest rm pid peer ini hin
    rw [hready] at hin
    obtain ⟨p, hp, hin⟩ := List.mem_flatMap.mp hin
    have hpne : p ≠ sid := by
      have := (List.mem_filter.mp hp).2
      simpa using this
    cases hprof : memberProfile st p with
    | none => rw [hprof] at hin; simp at hin
    | some pp =>
      rw [hprof] at hin
      simp only [List.mem_cons, List.mem_singleton, List.not_mem_nil, or_false] at hin
      rcases hin with hin | hin
      · obtain ⟨h1, h2, h3, h4, h5⟩ := Ev.p2pInit.inj hin.symm
        refine ⟨h2.symm, fun _ => ⟨h3.symm, h1 ▸ hpne⟩, fun hf => ?_⟩
        rw [← h5] at hf
        simp at hf
      · obtain ⟨h1, h2, h3, h4, h5⟩ := Ev.p2pInit.inj hin.symm
        refine ⟨h2.symm, fun ht => ?_, fun _ => ⟨h1.symm, h3 ▸ hpne⟩⟩
        rw [← h5] at ht
        simp at ht
  · rw [hready, List.length_flatMap]
    have hmap : ((listRoomSocketIds st (roomKey serverId channelId)).filter
        (fun i => decide (i ≠ sid))).map
          (fun peerId =>
            (match memberProfile st peerId with
              | none => ([] : List Ev)
              | some peerProfile =>
                [Ev.p2pInit peerId (roomKey serverId channelId) sid ⟨sid, c.userId⟩ true,
                 Ev.p2pInit sid (roomKey serverId channelId) peerId peerProfile false]).length) =
        ((listRoomSocketIds st (roomKey serverId channelId)).filter
          (fun i => decide (i ≠ sid))).map
            (fun p => if (memberProfile st p).isSome then 2 else 0) := by
      apply List.map_congr_left
      intro p _
      cases hprof : memberProfile st p <;> simp
    simp only [Function.comp_def]
    rw [hmap, sum_map_two_if]

/-- C5 counterexample: socket 2 declares p2p-ready in room (1,1) where
socket 1 already is.  The introduction delivered to the newly ready socket
2 (about peer 1) carries `initiator: false`, and the one delivered to the
existing peer 1 carries `initiator: true` — the reverse of the claim's
designation (the newly ready connection is *not* the initiator). -/
theorem p2pReady_initiator_cex :
    p2pReady readyCexState 2 1 1 =
      [Ev.p2pInit 1 (1, 1) 2 ⟨2, 20⟩ true, Ev.p2pInit 2 (1, 1) 1 ⟨1, 10⟩ false] ∧
    Ev.p2pInit 2 (1, 1) 1 ⟨1, 10⟩ true ∉ p2pReady readyCexState 2 1 1 ∧
    Ev.p2pInit 1 (1, 1) 2 ⟨2, 20⟩ false ∉ p2pReady readyCexState 2 1 1 := by
  decide

/-- Witness for `p2pReady_introductions` at a concrete state. -/
theorem p2pReady_introductions_witness :
    (∀ p ∈ (listRoomSocketIds readyCexState (roomKey 1 1)).filter
        (fun i => decide (i ≠ 2)),
      ∀ pp, memberProfile readyCexState p = some pp →
        Ev.p2pInit p (roomKey 1 1) 2 ⟨2, 20⟩ true ∈ p2pReady readyCexState 2 1 1 ∧
        Ev.p2pInit 2 (roomKey 1 1) p pp false ∈ p2pReady readyCexState 2 1 1) ∧
    (∀ dest rm pid peer ini,
      Ev.p2pInit dest rm pid peer ini ∈ p2pReady readyCexState 2 1 1 →
        rm = roomKey 1 1 ∧
        (ini = true → pid = 2 ∧ dest ≠ 2) ∧
        (ini = false → dest = 2 ∧ pid ≠ 2)) ∧
    (p2pReady readyCexState 2 1 1).length =
      2 * ((listRoomSocketIds readyCexState (roomKey 1 1)).filter
            (fun i => decide (i ≠ 2))).countP (fun p => (memberProfile readyCexState p).isSome) :=
  p2pReady_introductions readyCexState 2 1 1 ⟨2, 20, some (1, 1)⟩
    (by decide) (by decide) (by decide) (by decide)

/-! ### C8: server-message failure propagation -/

/-- C8: every `server-message` failure — missing fields, sender not joined
to the room, or unknown channel — is returned to the initiating connection
through the acknowledgment callback as an error ack (`{ok:false, error}`),
no events are broadcast, and the server state (in particular the ledger)
is unchanged; the unknown-channel case fails with the channel-not-found
error. -/
theorem serverMessage_error_contract (st : ServerState) (sid : Nat) (p : MsgPayload)
    (freshId now : Nat) :
    ((p.serverId == 0 || p.channelId == 0 ||
        (jsTrim p.content == "" && p.attachments.isEmpty)) = true →
      serverMessage st sid p freshId now = (st, [], .err "Missing message fields")) ∧
    (∀ c, (p.serverId == 0 || p.channelId == 0 ||
        (jsTrim p.content == "" && p.attachments.isEmpty)) = false →
      connOf st sid = some c →
      c.currentRoom ≠ some (roomKey p.serverId p.channelId) →
      serverMessage st sid p freshId now =
        (st, [], .err "Join the channel before sending messages")) ∧
    (∀ c, (p.serverId == 0 || p.channelId == 0 ||
        (jsTrim p.content == "" && p.attachments.isEmpty)) = false →
      connOf st sid = some c →
      c.currentRoom = some (roomKey p.serverId p.channelId) →
      getChannel st.store p.serverId p.channelId = false →
      serverMessage st sid p freshId now = (st, [], .err "Channel not found")) := by
  refine ⟨?_, ?_, ?_⟩
  · intro h
    simp [serverMessage, h]
  · intro c h hc hroom
    simp [serverMessage, h, hc, hroom]
  · intro c h hc hroom hchan
    simp [serverMessage, h, hc, hroom, addMessage, hchan]

/-- Witness for `serverMessage_error_contract` at concrete states: an
invalid payload, a sender that never joined the room, and a room that is
not a known channel. -/
theorem serverMessage_error_contract_witness :
    serverMessage twoConnState 1 { okPayload with serverId := 0 } 5 6 =
      (twoConnState, [], .err "Missing message fields") ∧
    serverMessage twoConnState 3 okPayload 5 6 =
      (twoConnState, [], .err "Join the channel before sending messages") ∧
    serverMessage signalCexState 2 { okPayload with serverId := 9, channelId := 9 } 5 6 =
      (signalCexState, [], .err "Channel not found") :=
  ⟨(serverMessage_error_contract twoConnState 1 { okPayload with serverId := 0 } 5 6).1
      (by decide),
   (serverMessage_error_contract twoConnState 3 okPayload 5 6).2.1 ⟨3, 10, none⟩
      (by decide) (by decide) (by decide),
   (serverMessage_error_contract signalCexState 2
        { okPayload with serverId := 9, channelId := 9 } 5 6).2.2 ⟨2, 20, some (9, 9)⟩
      (by decide) (by decide) (by decide) (by decide)⟩

/-! ### C10: store-message has no membership precondition -/

theorem find?_append_none {l₁ l₂ : List Row} {p : Row → Bool} (h : ∀ x ∈ l₁, p x = false) :
    (l₁ ++ l₂).find? p = l₂.find? p := by
  induction l₁ with
  | nil => simp
  | cons a rest ih =>
    have ha : p a = false := h a (List.mem_cons_self a rest)
    simp only [List.cons_append, List.find?]
    rw [ha]
    exact ih (fun x hx => h x (List.mem_cons_of_mem a hx))

theorem channelCount_append_single (l : List Row) (r : Row) (c : Nat) :
    channelCount (l ++ [r]) c = channelCount l c + if r.channelId = c then 1 else 0 := by
  unfold channelCount
  rw [List.filter_append, List.length_append]
  by_cases h : r.channelId = c <;> simp [h]

/-- C10: for an authenticated connection and an existing channel, a
`store-message` event persists the message to the channel's ledger and
acks ok with the stored message, even when the sending connection's
current room is not the target room (the hypothesis `hnr` states the
sender has not joined it, and no part of the handler consults it) —
unlike `server-message`, there is no room-membership precondition. -/
theorem storeMessage_no_membership_check (st : ServerState) (sid : Nat) (p : MsgPayload)
    (freshId now : Nat) (c : Conn) (mid : Nat)
    (hc : connOf st sid = some c)
    (hnr : c.currentRoom ≠ some (roomKey p.serverId p.channelId))
    (hsv : p.serverId ≠ 0) (hch : p.channelId ≠ 0)
    (hcontent : jsTrim p.content ≠ "")
    (hchan : getChannel st.store p.serverId p.channelId = true)
    (hmid : p.msgId = some mid)
    (hfresh : mid ∉ st.store.rows.map Row.id)
    (hcap : channelCount st.store.rows p.channelId < MAX_MESSAGES_PER_CHANNEL) :
    storeMessage st sid p freshId now =
      ({ st with store :=
          { st.store with
            rows := st.store.rows ++
              [⟨mid, p.serverId, p.channelId, p.timestamp.getD now, st.store.nextRowid⟩],
            nextRowid := st.store.nextRowid + 1 } },
       [],
       .okStored (some ⟨mid, p.serverId, p.channelId, p.timestamp.getD now, st.store.nextRowid⟩)) := by
  have hval : (p.serverId == 0 || p.channelId == 0 ||
      (jsTrim p.content == "" && p.attachments.isEmpty)) = false := by
    simp [hsv, hch, hcontent]
  have hcnt : channelCount
      (st.store.rows ++
        [⟨mid, p.serverId, p.channelId, p.timestamp.getD now, st.store.nextRowid⟩])
      p.channelId = channelCount st.store.rows p.channelId + 1 := by
    rw [channelCount_append_single]
    simp
  have hfind : (st.store.rows ++
      [(⟨mid, p.serverId, p.channelId, p.timestamp.getD now, st.store.nextRowid⟩ : Row)]).find?
        (fun q => q.id == mid) =
      some (⟨mid, p.serverId, p.channelId, p.timestamp.getD now, st.store.nextRowid⟩ : Row) := by
    rw [find?_append_none]
    · simp [List.find?]
    · intro x hx
      simp only [beq_eq_false_iff_ne, ne_eq]
      intro hxid
      exact hfresh (hxid ▸ List.mem_map_of_mem Row.id hx)
  have hng : ¬ (channelCount st.store.rows p.channelId + 1 > MAX_MESSAGES_PER_CHANNEL) := by
    omega
  simp only [storeMessage, hval, Bool.false_eq_true, if_false, hc]
  simp only [addMessage, addMessageRows, hchan, Bool.true_eq_false, if_false, hmid,
    Option.getD_some]
  simp only [hcnt, hng, if_false]
  simp [hfind]

/-- Witness for `storeMessage_no_membership_check`: socket 3 (user 10) has
`currentRoom = none` — it never joined room (1,1) — yet its store-message
for channel (1,1) persists and acks ok. -/
theorem storeMessage_no_membership_check_witness :
    storeMessage twoConnState 3 okPayload 5 6 =
      ({ twoConnState with store :=
          { twoConnState.store with
            rows := twoConnState.store.rows ++ [⟨55, 1, 1, 123, 0⟩],
            nextRowid := 1 } },
       [],
       .okStored (some ⟨55, 1, 1, 123, 0⟩)) := by
  have h := storeMessage_no_membership_check twoConnState 3 okPayload 5 6 ⟨3, 10, none⟩ 55
    (by decide) (by decide) (by decide) (by decide) (by decide) (by decide) rfl
    (by decide) (by decide)
  simpa using h

/-! ### C4: replace-not-append reconciliation in the client reducer -/

theorem count_subst_ids (ids : List Nat) (tempId newId : Nat)
    (hnot : newId ∉ ids) (hne : tempId ≠ newId) :
    (ids.map (fun i => if i == tempId then newId else i)).count newId = ids.count tempId ∧
    (ids.map (fun i => if i == tempId then newId else i)).count tempId = 0 := by
  induction ids with
  | nil => simp
  | cons a rest ih =>
    simp only [List.mem_cons, not_or] at hnot
    obtain ⟨ih1, ih2⟩ := ih hnot.2
    by_cases ha : a = tempId
    · subst ha
      simp only [beq_self_eq_true, if_true, List.map_cons, List.count_cons, ih1, ih2]
      constructor
      · simp
      · simp [Ne.symm hne]
    · have ha' : (a == tempId) = false := by simpa using ha
      simp only [List.map_cons, ha', Bool.false_eq_true, if_false, List.count_cons, ih1, ih2]
      constructor
      · have : ¬ (a = newId) := fun h => hnot.1 h.symm
        simp [this, ha]
      · simp [ha]

theorem subst_ids_bridge (l : List CMsg) (tempId : Nat) (m : CMsg) :
    (l.map (fun x => if x.id == tempId then m else x)).map CMsg.id =
      (l.map CMsg.id).map (fun i => if i == tempId then m.id else i) := by
  rw [List.map_map, List.map_map]
  apply List.map_congr_left
  intro x _
  by_cases h : x.id = tempId <;> simp [Function.comp, h]

theorem messagesReducer_add_present (state : MessagesState) (sv ch : Nat) (m : CMsg)
    (h : ((lookupA state (channelKey sv ch)).getD []).any (fun x => x.id == m.id) = true) :
    messagesReducer state (.add sv ch m) = state := by
  simp [messagesReducer, h]

theorem messagesReducer_replace_present (state : MessagesState) (sv ch tempId : Nat) (m : CMsg)
    (h : ((lookupA state (channelKey sv ch)).getD []).any (fun x => x.id == tempId) = true) :
    messagesReducer state (.replace sv ch tempId m) =
      setA state (channelKey sv ch)
        (((lookupA state (channelKey sv ch)).getD []).map
          (fun x => if x.id == tempId then m else x)) := by
  simp [messagesReducer, h]

/-- C4: if the channel list holds exactly one entry under the temp id and
the server id is not yet present, then processing the `replace` ack
followed by a later `add` of the same persisted message leaves the list
with the temp entry substituted in place: same length, exactly one entry
under the server id, none under the temp id — never two entries for the
one logical send. -/
theorem messagesReducer_replace_then_add (state : MessagesState) (sv ch tempId : Nat)
    (m : CMsg) (l : List CMsg)
    (hl : (lookupA state (channelKey sv ch)).getD [] = l)
    (hcount : (l.map CMsg.id).count tempId = 1)
    (hnot : m.id ∉ l.map CMsg.id)
    (hne : tempId ≠ m.id) :
    (lookupA (messagesReducer (messagesReducer state (.replace sv ch tempId m))
        (.add sv ch m)) (channelKey sv ch)).getD [] =
      l.map (fun x => if x.id == tempId then m else x) ∧
    (l.map (fun x => if x.id == tempId then m else x)).length = l.length ∧
    ((l.map (fun x => if x.id == tempId then m else x)).map CMsg.id).count m.id = 1 ∧
    ((l.map (fun x => if x.id == tempId then m else x)).map CMsg.id).count tempId = 0 := by
  have htmem : tempId ∈ l.map CMsg.id := by
    have : 0 < (l.map CMsg.id).count tempId := by omega
    exact List.count_pos_iff.mp this
  obtain ⟨x0, hx0, hx0id⟩ := List.mem_map.mp htmem
  have hasTemp : l.any (fun x => x.id == tempId) = true :=
    List.any_eq_true.mpr ⟨x0, hx0, beq_iff_eq.mpr hx0id⟩
  have hs1 : messagesReducer state (.replace sv ch tempId m) =
      setA state (channelKey sv ch) (l.map (fun x => if x.id == tempId then m else x)) := by
    rw [messagesReducer_replace_present state sv ch tempId m (by rw [hl]; exact hasTemp), hl]
  have hlook1 : (lookupA (messagesReducer state (.replace sv ch tempId m))
      (channelKey sv ch)).getD [] = l.map (fun x => if x.id == tempId then m else x) := by
    rw [hs1, lookupA_setA_self]
    rfl
  have hmmem : m ∈ l.map (fun x => if x.id == tempId then m else x) :=
    List.mem_map.mpr ⟨x0, hx0, by simp [beq_iff_eq.mpr hx0id]⟩
  have hasM : (l.map (fun x => if x.id == tempId then m else x)).any
      (fun x => x.id == m.id) = true :=
    List.any_eq_true.mpr ⟨m, hmmem, beq_self_eq_true _⟩
  have hs2 : messagesReducer (messagesReducer state (.replace sv ch tempId m))
      (.add sv ch m) = messagesReducer state (.replace sv ch tempId m) :=
    messagesReducer_add_present _ sv ch m (by rw [hlook1]; exact hasM)
  obtain ⟨hc1, hc2⟩ := count_subst_ids (l.map CMsg.id) tempId m.id hnot hne
  refine ⟨by rw [hs2, hlook1], by simp, ?_, ?_⟩
  · rw [subst_ids_bridge, hc1, hcount]
  · rw [subst_ids_bridge, hc2]

/-- Witness for `messagesReducer_replace_then_add`: one pending temp entry
(id 100), acked and replaced by server message id 55, then redelivered. -/
theorem messagesReducer_replace_then_add_witness :
    (lookupA (messagesReducer (messagesReducer
        [((1, 1), [⟨100, 0, true, none⟩])]
        (.replace 1 1 100 ⟨55, 1, false, none⟩))
        (.add 1 1 ⟨55, 1, false, none⟩)) (channelKey 1 1)).getD [] =
      [⟨100, 0, true, none⟩].map
        (fun x => if x.id == 100 then (⟨55, 1, false, none⟩ : CMsg) else x) ∧
    ([⟨100, 0, true, none⟩].map
        (fun x => if x.id == 100 then (⟨55, 1, false, none⟩ : CMsg) else x)).length =
      [(⟨100, 0, true, none⟩ : CMsg)].length ∧
    (([⟨100, 0, true, none⟩].map
        (fun x => if x.id == 100 then (⟨55, 1, false, none⟩ : CMsg) else x)).map
        CMsg.id).count 55 = 1 ∧
    (([⟨100, 0, true, none⟩].map
        (fun x => if x.id == 100 then (⟨55, 1, false, none⟩ : CMsg) else x)).map
        CMsg.id).count 100 = 0 :=
  messagesReducer_replace_then_add [((1, 1), [⟨100, 0, true, none⟩])] 1 1 100
    ⟨55, 1, false, none⟩ [⟨100, 0, true, none⟩] (by decide) (by decide) (by decide) (by decide)

/-! ### C7: typing expiry -/

theorem keys_map_snd (m : TypingState) (g : List TypingEntry → List TypingEntry) :
    ((m.map (fun p => (p.1, g p.2))).map Prod.fst) = m.map Prod.fst := by
  rw [List.map_map]
  apply List.map_congr_left
  intro p _
  rfl

theorem typingSweep_no_room (rest : TypingState) (now : Nat) (room : RoomKey)
    (h : ∀ p ∈ rest, p.1 ≠ room) :
    (typingSweep rest now).2.filter (isUpdateFor room) = [] := by
  induction rest with
  | nil => rfl
  | cons p tail ih =>
    have hp : p.1 ≠ room := h p (List.mem_cons_self _ _)
    have htail := ih (fun q hq => h q (List.mem_cons_of_mem p hq))
    simp only [typingSweep, List.filterMap_cons] at htail ⊢
    by_cases hlen : ((sweepRoom p.2 now).length == p.2.length) = true
    · rw [if_pos hlen]
      exact htail
    · rw [if_neg hlen, List.filter_cons]
      have hcond : isUpdateFor room
          (TypingEv.typingUpdate p.1 ((sweepRoom p.2 now).map TypingEntry.userId)) = false := by
        simp [isUpdateFor, hp]
      rw [hcond]
      simp only [Bool.false_eq_true, if_false]
      exact htail

theorem typingSweep_events_for_room (ts : TypingState) (now : Nat) (room : RoomKey)
    (es : List TypingEntry)
    (hnodup : (ts.map Prod.fst).Nodup) (hes : lookupA ts room = some es) :
    (typingSweep ts now).2.filter (isUpdateFor room) =
      (if (sweepRoom es now).length = es.length then []
       else [TypingEv.typingUpdate room ((sweepRoom es now).map TypingEntry.userId)]) := by
  induction ts with
  | nil => simp [lookupA] at hes
  | cons p tail ih =>
    obtain ⟨pk, pv⟩ := p
    simp only [List.map_cons, List.nodup_cons] at hnodup
    by_cases hp : pk = room
    · subst hp
      have hv : pv = es := by simpa [lookupA] using hes
      subst hv
      have htail : ∀ q ∈ tail, q.1 ≠ pk := by
        intro q hq hqeq
        exact hnodup.1 (hqeq ▸ List.mem_map_of_mem Prod.fst hq)
      have hrest := typingSweep_no_room tail now pk htail
      simp only [typingSweep, List.filterMap_cons] at hrest ⊢
      by_cases hlen : (sweepRoom pv now).length = pv.length
      · rw [if_pos (beq_iff_eq.mpr hlen), if_pos hlen]
        exact hrest
      · rw [if_neg (by simpa using hlen), if_neg hlen, List.filter_cons]
        have hcond : isUpdateFor pk
            (TypingEv.typingUpdate pk ((sweepRoom pv now).map TypingEntry.userId)) = true := by
          simp [isUpdateFor]
        rw [hcond]
        simp only [if_true]
        rw [hrest]
    · have hes' : lookupA tail room = some es := by simpa [lookupA, hp] using hes
      have hgoal := ih hnodup.2 hes'
      simp only [typingSweep, List.filterMap_cons] at hgoal ⊢
      by_cases hlen : ((sweepRoom pv now).length == pv.length) = true
      · rw [if_pos hlen]
        exact hgoal
      · rw [if_neg hlen, List.filter_cons]
        have hcond : isUpdateFor room
            (TypingEv.typingUpdate pk ((sweepRoom pv now).map TypingEntry.userId)) = false := by
          simp [isUpdateFor, hp]
        rw [hcond]
        simp only [Bool.false_eq_true, if_false]
        exact hgoal

/-- C7 (spec-modelled): after `typing-start` for user `u` at `t0` with no
`typing-stop`: the start emits the update announcing `u`; a sweep before
`t0 + TYPING_TTL` emits nothing for the room and keeps the entry; the
first sweep at or after `t0 + TYPING_TTL` expires the entry and emits
exactly one `typing-update` for the room reporting the now-empty typers
set; a later sweep emits nothing further.  In general a sweep emits an
update for a room only when that room's typers set actually changes. -/
theorem typing_expiry_contract (ts : TypingState) (room : RoomKey) (u t0 ttl t1 t2 t3 : Nat)
    (hempty : (lookupA ts room).getD [] = [])
    (hkeys : (ts.map Prod.fst).Nodup)
    (h1 : t1 < t0 + ttl) (h2 : t0 + ttl ≤ t2) (h3 : t2 ≤ t3) :
    (typingStart ts room u t0 ttl).2 = [TypingEv.typingUpdate room [u]] ∧
    (typingSweep (typingStart ts room u t0 ttl).1 t1).2.filter (isUpdateFor room) = [] ∧
    typersOf (typingSweep (typingStart ts room u t0 ttl).1 t1).1 room = [u] ∧
    (typingSweep (typingSweep (typingStart ts room u t0 ttl).1 t1).1 t2).2.filter
        (isUpdateFor room) = [TypingEv.typingUpdate room []] ∧
    typersOf (typingSweep (typingSweep (typingStart ts room u t0 ttl).1 t1).1 t2).1 room = [] ∧
    (typingSweep (typingSweep (typingSweep (typingStart ts room u t0 ttl).1 t1).1 t2).1
        t3).2.filter (isUpdateFor room) = [] ∧
    (∀ (ts' : TypingState) (now : Nat) (rm : RoomKey) (typers : List Nat),
      TypingEv.typingUpdate rm typers ∈ (typingSweep ts' now).2 →
      ∃ entries, (rm, entries) ∈ ts' ∧
        typers = (sweepRoom entries now).map TypingEntry.userId ∧
        typers ≠ entries.map TypingEntry.userId) := by
  have hstart1 : (typingStart ts room u t0 ttl).1 = setA ts room [⟨u, t0 + ttl⟩] := by
    simp [typingStart, hempty]
  have hstart2 : (typingStart ts room u t0 ttl).2 = [TypingEv.typingUpdate room [u]] := by
    simp [typingStart, hempty, typersOf, lookupA_setA_self]
  have hlook1 : lookupA (typingStart ts room u t0 ttl).1 room = some [⟨u, t0 + ttl⟩] := by
    rw [hstart1]
    exact lookupA_setA_self ts room _
  have hkeys1 : ((typingStart ts room u t0 ttl).1.map Prod.fst).Nodup := by
    rw [hstart1]
    exact nodup_keys_setA ts room _ hkeys
  have hsw1 : sweepRoom [⟨u, t0 + ttl⟩] t1 = [⟨u, t0 + ttl⟩] := by
    simp [sweepRoom, h1]
  have hmap1 := lookupA_map_snd (typingStart ts room u t0 ttl).1 (fun l => sweepRoom l t1) room
  have hmap1k := keys_map_snd (typingStart ts room u t0 ttl).1 (fun l => sweepRoom l t1)
  have hstate2 : (typingSweep (typingStart ts room u t0 ttl).1 t1).1 =
      (typingStart ts room u t0 ttl).1.map (fun p => (p.1, sweepRoom p.2 t1)) := rfl
  have hlook2 : lookupA (typingSweep (typingStart ts room u t0 ttl).1 t1).1 room =
      some [⟨u, t0 + ttl⟩] := by
    rw [hstate2, hmap1, hlook1]
    simp [hsw1]
  have hkeys2 : ((typingSweep (typingStart ts room u t0 ttl).1 t1).1.map Prod.fst).Nodup := by
    rw [hstate2, hmap1k]
    exact hkeys1
  have hsw2 : sweepRoom [⟨u, t0 + ttl⟩] t2 = [] := by
    simp only [sweepRoom, List.filter_eq_nil_iff]
    intro e he
    simp only [List.mem_singleton] at he
    subst he
    simpa using h2
  have hmap2 := lookupA_map_snd (typingSweep (typingStart ts room u t0 ttl).1 t1).1
    (fun l => sweepRoom l t2) room
  have hmap2k := keys_map_snd (typingSweep (typingStart ts room u t0 ttl).1 t1).1
    (fun l => sweepRoom l t2)
  have hstate3 : (typingSweep (typingSweep (typingStart ts room u t0 ttl).1 t1).1 t2).1 =
      (typingSweep (typingStart ts room u t0 ttl).1 t1).1.map
        (fun p => (p.1, sweepRoom p.2 t2)) := rfl
  have hlook3 : lookupA (typingSweep (typingSweep (typingStart ts room u t0 ttl).1 t1).1
      t2).1 room = some [] := by
    rw [hstate3, hmap2, hlook2]
    simp [hsw2]
  have hkeys3 : ((typingSweep (typingSweep (typingStart ts room u t0 ttl).1 t1).1
      t2).1.map Prod.fst).Nodup := by
    rw [hstate3, hmap2k]
    exact hkeys2
  refine ⟨hstart2, ?_, ?_, ?_, ?_, ?_, ?_⟩
  · rw [typingSweep_events_for_room _ t1 room _ hkeys1 hlook1, hsw1, if_pos rfl]
  · unfold typersOf
    rw [hlook2]
    rfl
  · rw [typingSweep_events_for_room _ t2 room _ hkeys2 hlook2, hsw2]
    simp
  · unfold typersOf
    rw [hlook3]
    rfl
  · rw [typingSweep_events_for_room _ t3 room _ hkeys3 hlook3]
    simp [sweepRoom]
  · intro ts' now rm typers hin
    obtain ⟨p, hp, hf⟩ := List.mem_filterMap.mp hin
    by_cases hlen : ((sweepRoom p.2 now).length == p.2.length) = true
    · rw [if_pos hlen] at hf
      simp at hf
    · rw [if_neg hlen] at hf
      simp only [Option.some.injEq] at hf
      obtain ⟨hrm, htypers⟩ := TypingEv.typingUpdate.inj hf
      refine ⟨p.2, by rw [← hrm]; exact hp, htypers.symm, ?_⟩
      rw [← htypers]
      intro hcontra
      apply hlen
      have hlencong := congrArg List.length hcontra
      simp only [List.length_map] at hlencong
      simpa using hlencong

/-- Witness for `typing_expiry_contract` at concrete instants. -/
theorem typing_expiry_contract_witness :
    (typingStart [] (1, 1) 7 0 10).2 = [TypingEv.typingUpdate (1, 1) [7]] ∧
    (typingSweep (typingStart [] (1, 1) 7 0 10).1 9).2.filter (isUpdateFor (1, 1)) = [] ∧
    typersOf (typingSweep (typingStart [] (1, 1) 7 0 10).1 9).1 (1, 1) = [7] ∧
    (typingSweep (typingSweep (typingStart [] (1, 1) 7 0 10).1 9).1 10).2.filter
        (isUpdateFor (1, 1)) = [TypingEv.typingUpdate (1, 1) []] ∧
    typersOf (typingSweep (typingSweep (typingStart [] (1, 1) 7 0 10).1 9).1 10).1 (1, 1) = [] ∧
    (typingSweep (typingSweep (typingSweep (typingStart [] (1, 1) 7 0 10).1 9).1 10).1
        12).2.filter (isUpdateFor (1, 1)) = [] ∧
    (∀ (ts' : TypingState) (now : Nat) (rm : RoomKey) (typers : List Nat),
      TypingEv.typingUpdate rm typers ∈ (typingSweep ts' now).2 →
      ∃ entries, (rm, entries) ∈ ts' ∧
        typers = (sweepRoom entries now).map TypingEntry.userId ∧
        typers ≠ entries.map TypingEntry.userId) :=
  typing_expiry_contract [] (1, 1) 7 0 10 9 10 12 (by decide) (by decide)
    (by decide) (by decide) (by decide)

/-! ### C9: attachment association -/

theorem attachment_conflict_bool_iff (atts : List Attachment) (refs : List Nat)
    (msgId uploaderId : Nat) :
    (refs.any (fun ref =>
      atts.any (fun a =>
        a.id == ref &&
          ((a.messageId.isSome && a.messageId != some msgId) || a.uploaderId != uploaderId)))) =
        true ↔
    (∃ ref ∈ refs, ∃ a ∈ atts, a.id = ref ∧
      ((∃ mid, a.messageId = some mid ∧ mid ≠ msgId) ∨ a.uploaderId ≠ uploaderId)) := by
  simp only [List.any_eq_true, Bool.and_eq_true, Bool.or_eq_true, beq_iff_eq, bne_iff_ne,
    ne_eq, Option.isSome_iff_exists]
  constructor
  · rintro ⟨ref, href, a, ha, haid, hrest⟩
    refine ⟨ref, href, a, ha, haid, ?_⟩
    rcases hrest with ⟨⟨mid, hmid⟩, hne⟩ | hup
    · exact Or.inl ⟨mid, hmid, fun hc => hne (by rw [hmid, hc])⟩
    · exact Or.inr hup
  · rintro ⟨ref, href, a, ha, haid, hrest⟩
    refine ⟨ref, href, a, ha, haid, ?_⟩
    rcases hrest with ⟨mid, hmid, hne⟩ | hup
    · refine Or.inl ⟨⟨mid, hmid⟩, ?_⟩
      rw [hmid]
      simpa using hne
    · exact Or.inr hup

/-- C9 (spec-modelled): an append whose draft references an attachment that
is already bound to a different message or owned by a different uploader
fails with `AttachmentConflict`, returning an error and no new state —
nothing is partially persisted (the caller keeps the pre-append ledger);
an accepted append inserts the message and binds every referenced
attachment to the persisted message's id, leaving attachment identities
unchanged. -/
theorem appendWithAttachments_contract (st : LedgerState) (serverId channelId : Nat)
    (msgId uploaderId : Nat) (refs : List Nat) (ts : Nat) :
    ((∃ ref ∈ refs, ∃ a ∈ st.attachments, a.id = ref ∧
        ((∃ mid, a.messageId = some mid ∧ mid ≠ msgId) ∨ a.uploaderId ≠ uploaderId)) →
      appendWithAttachments st serverId channelId msgId uploaderId refs ts =
        .error "AttachmentConflict") ∧
    ((¬ ∃ ref ∈ refs, ∃ a ∈ st.attachments, a.id = ref ∧
        ((∃ mid, a.messageId = some mid ∧ mid ≠ msgId) ∨ a.uploaderId ≠ uploaderId)) →
      channelCount st.rows channelId < MAX_MESSAGES_PER_CHANNEL →
      ∃ st', appendWithAttachments st serverId channelId msgId uploaderId refs ts = .ok st' ∧
        st'.rows = st.rows ++ [⟨msgId, serverId, channelId, ts, st.rows.length⟩] ∧
        (∀ a ∈ st'.attachments, a.id ∈ refs → a.messageId = some msgId) ∧
        st'.attachments.map Attachment.id = st.attachments.map Attachment.id) := by
  constructor
  · intro h
    have hb := (attachment_conflict_bool_iff st.attachments refs msgId uploaderId).mpr h
    simp [appendWithAttachments, hb]
  · intro h hcap
    have hb : (refs.any (fun ref =>
        st.attachments.any (fun a =>
          a.id == ref &&
            ((a.messageId.isSome && a.messageId != some msgId) ||
              a.uploaderId != uploaderId)))) = false := by
      rw [Bool.eq_false_iff]
      intro hb'
      exact h ((attachment_conflict_bool_iff st.attachments refs msgId uploaderId).mp hb')
    have hcnt := channelCount_append_single st.rows
      ⟨msgId, serverId, channelId, ts, st.rows.length⟩ channelId
    have hng : ¬ (channelCount
        (st.rows ++ [(⟨msgId, serverId, channelId, ts, st.rows.length⟩ : Row)]) channelId >
          MAX_MESSAGES_PER_CHANNEL) := by
      rw [hcnt]
      have hproj : (⟨msgId, serverId, channelId, ts, st.rows.length⟩ : Row).channelId =
          channelId := rfl
      rw [hproj, if_pos rfl]
      simp only [gt_iff_lt, not_lt]
      omega
    refine ⟨⟨st.rows ++ [⟨msgId, serverId, channelId, ts, st.rows.length⟩],
      st.attachments.map (fun a =>
        if refs.contains a.id then { a with messageId := some msgId } else a)⟩, ?_, rfl, ?_, ?_⟩
    · simp only [appendWithAttachments, hb, Bool.false_eq_true, if_false, hng]
    · intro a ha haid
      obtain ⟨a0, ha0, hfa⟩ := List.mem_map.mp ha
      by_cases hin : refs.contains a0.id
      · rw [← hfa]
        have hmem : a0.id ∈ refs := by simpa using hin
        simp [hin, hmem]
      · rw [← hfa] at haid
        simp only [hin, Bool.false_eq_true, if_false] at haid
        have : a0.id ∈ refs := haid
        have hnot : a0.id ∉ refs := by simpa using hin
        exact absurd this hnot
    · simp only [List.map_map]
      apply List.map_congr_left
      intro a _
      by_cases hin : refs.contains a.id = true
      · simp only [Function.comp_apply, hin, if_true]
      · simp only [Function.comp_apply, hin, Bool.false_eq_true, if_false]

/-- Witness for `appendWithAttachments_contract`: attachment 3 owned by
user 8 and bound to message 500; binding it from message 501 conflicts,
while a fresh append by user 8 referencing attachment 4 succeeds and binds
it. -/
theorem appendWithAttachments_contract_witness :
    appendWithAttachments ⟨[], [⟨3, 8, some 500⟩]⟩ 1 1 501 8 [3] 50 =
      .error "AttachmentConflict" ∧
    ∃ st', appendWithAttachments ⟨[], [⟨4, 8, none⟩]⟩ 1 1 501 8 [4] 50 = .ok st' ∧
      st'.rows = ([] : List Row) ++ [⟨501, 1, 1, 50, 0⟩] ∧
      (∀ a ∈ st'.attachments, a.id ∈ [4] → a.messageId = some 501) ∧
      st'.attachments.map Attachment.id = [⟨4, 8, none⟩].map Attachment.id :=
  ⟨(appendWithAttachments_contract ⟨[], [⟨3, 8, some 500⟩]⟩ 1 1 501 8 [3] 50).1
      ⟨3, by decide, ⟨3, 8, some 500⟩, by decide, rfl, Or.inl ⟨500, rfl, by decide⟩⟩,
   (appendWithAttachments_contract ⟨[], [⟨4, 8, none⟩]⟩ 1 1 501 8 [4] 50).2
      (by
        rintro ⟨ref, href, a, ha, haid, hrest⟩
        simp only [List.mem_singleton] at href ha
        subst ha
        rcases hrest with ⟨mid, hmid, hne⟩ | hup
        · exact Option.noConfusion hmid
        · exact hup rfl)
      (by decide)⟩

/-! ### C1: bounded retention -/

theorem channelCount_prune_same (rows : List Row) (c k : Nat)
    (hk : k ≤ channelCount rows c) :
    channelCount (pruneMessages rows c k) c ≤ channelCount rows c - k := by
  unfold pruneMessages channelCount
  set chanPred : Row → Bool := fun r => r.channelId == c with hchan
  set chRows := rows.filter chanPred with hch
  set sorted := chRows.insertionSort rowLe with hsorted
  set victims := (sorted.take k).map Row.id with hvic
  set keep : Row → Bool := fun r => !victims.contains r.id with hkeep
  have h1 : (rows.filter keep).filter chanPred = (rows.filter chanPred).filter keep := by
    rw [List.filter_filter, List.filter_filter]
    apply List.filter_congr
    intro x _
    exact Bool.and_comm _ _
  rw [h1]
  have h2 : (chRows.filter keep).length = chRows.countP keep := by
    rw [List.countP_eq_length_filter]
  have h3 : chRows.countP keep = sorted.countP keep :=
    ((List.perm_insertionSort rowLe chRows).symm.countP_eq keep)
  have h4 : sorted = sorted.take k ++ sorted.drop k := (List.take_append_drop k sorted).symm
  have h5 : (sorted.take k).countP keep = 0 := by
    rw [List.countP_eq_zero]
    intro x hx
    have hxv : x.id ∈ victims := by
      rw [hvic]
      exact List.mem_map_of_mem Row.id hx
    simp [hkeep, hxv]
  have h6 : sorted.countP keep = (sorted.drop k).countP keep := by
    conv_lhs => rw [h4]
    rw [List.countP_append, h5, Nat.zero_add]
  have h7 : (sorted.drop k).countP keep ≤ (sorted.drop k).length := List.countP_le_length keep
  have h8 : (sorted.drop k).length = chRows.length - k := by
    rw [List.length_drop]
    congr 1
    exact List.length_insertionSort _ _
  calc ((rows.filter chanPred).filter keep).length
      = sorted.countP keep := by rw [← hch, h2, h3]
    _ = (sorted.drop k).countP keep := h6
    _ ≤ (sorted.drop k).length := h7
    _ = chRows.length - k := h8

theorem channelCount_prune_le (rows : List Row) (c c' k : Nat) :
    channelCount (pruneMessages rows c k) c' ≤ channelCount rows c' := by
  unfold pruneMessages channelCount
  exact ((List.filter_sublist rows).filter _).length_le

theorem addMessageRows_cap (rows : List Row) (channelId : Nat) (r : Row)
    (hr : r.channelId = channelId)
    (h : ∀ c, channelCount rows c ≤ MAX_MESSAGES_PER_CHANNEL) (c : Nat) :
    channelCount (addMessageRows rows channelId r) c ≤ MAX_MESSAGES_PER_CHANNEL := by
  unfold addMessageRows
  by_cases hgt : channelCount (rows ++ [r]) channelId > MAX_MESSAGES_PER_CHANNEL
  · rw [if_pos hgt]
    by_cases hc : c = channelId
    · subst hc
      have hk : channelCount (rows ++ [r]) c - MAX_MESSAGES_PER_CHANNEL ≤
          channelCount (rows ++ [r]) c := Nat.sub_le _ _
      have := channelCount_prune_same (rows ++ [r]) c
        (channelCount (rows ++ [r]) c - MAX_MESSAGES_PER_CHANNEL) hk
      omega
    · calc channelCount (pruneMessages (rows ++ [r]) channelId _) c
          ≤ channelCount (rows ++ [r]) c := channelCount_prune_le _ _ _ _
        _ = channelCount rows c := by
            rw [channelCount_append_single, if_neg (hr ▸ fun hx => hc hx.symm)]
            omega
        _ ≤ MAX_MESSAGES_PER_CHANNEL := h c
  · rw [if_neg hgt]
    by_cases hc : c = channelId
    · subst hc
      omega
    · rw [channelCount_append_single, if_neg (hr ▸ fun hx => hc hx.symm)]
      simpa using h c

theorem applyAppend_of_channel (s : StoreState) (q : AppendReq)
    (hch : getChannel s q.serverId q.channelId = true) :
    applyAppend s q =
      { s with rows := addMessageRows s.rows q.channelId (reqRow q s.nextRowid),
               nextRowid := s.nextRowid + 1 } := by
  simp [applyAppend, addMessage, hch, reqRow, effId, effTs]

theorem applyAppend_of_no_channel (s : StoreState) (q : AppendReq)
    (hch : getChannel s q.serverId q.channelId = false) :
    applyAppend s q = s := by
  simp [applyAppend, addMessage, hch]

theorem applyAppend_cap (s : StoreState) (q : AppendReq)
    (h : ∀ c, channelCount s.rows c ≤ MAX_MESSAGES_PER_CHANNEL) (c : Nat) :
    channelCount (applyAppend s q).rows c ≤ MAX_MESSAGES_PER_CHANNEL := by
  by_cases hch : getChannel s q.serverId q.channelId = true
  · rw [applyAppend_of_channel s q hch]
    exact addMessageRows_cap s.rows q.channelId (reqRow q s.nextRowid) rfl h c
  · rw [applyAppend_of_no_channel s q (Bool.not_eq_true _ ▸ hch)]
    exact h c

theorem runAppends_cap (qs : List AppendReq) :
    ∀ s : StoreState, (∀ c, channelCount s.rows c ≤ MAX_MESSAGES_PER_CHANNEL) →
    ∀ c, channelCount (runAppends s qs).rows c ≤ MAX_MESSAGES_PER_CHANNEL := by
  induction qs with
  | nil => intro s h c; exact h c
  | cons q rest ih =>
    intro s h c
    exact ih (applyAppend s q) (applyAppend_cap s q h) c

theorem pruneMessages_sorted_one (l : List Row) (c : Nat)
    (hall : ∀ r ∈ l, r.channelId = c)
    (hsort : l.Pairwise rowLe)
    (hids : (l.map Row.id).Nodup) :
    pruneMessages l c 1 = l.tail := by
  unfold pruneMessages
  have hfilter : l.filter (fun r => r.channelId == c) = l :=
    List.filter_eq_self.mpr (fun r hr => beq_iff_eq.mpr (hall r hr))
  rw [hfilter, List.Sorted.insertionSort_eq hsort]
  cases l with
  | nil => rfl
  | cons r t =>
    simp only [List.take_succ_cons, List.take_zero, List.map_cons, List.map_nil,
      List.filter_cons]
    have hhead : (!(([r.id] : List Nat).contains r.id)) = false := by simp
    rw [hhead]
    simp only [Bool.false_eq_true, if_false, List.tail_cons]
    apply List.filter_eq_self.mpr
    intro x hx
    have hxne : x.id ≠ r.id := by
      simp only [List.map_cons, List.nodup_cons] at hids
      intro he
      exact hids.1 (he ▸ List.mem_map_of_mem Row.id hx)
    simp [hxne]

theorem tail_append_of_ne_nil {l r : List Row} (h : l ≠ []) :
    (l ++ r).tail = l.tail ++ r := by
  cases l with
  | nil => exact absurd rfl h
  | cons a t => rfl

theorem runAppends_monotone_aux (qs : List AppendReq) :
    ∀ (s : StoreState) (sv ch : Nat),
      s.channels = [(sv, ch)] →
      (∀ r ∈ s.rows, r.channelId = ch) →
      (∀ q ∈ qs, q.serverId = sv ∧ q.channelId = ch) →
      s.rows.Pairwise (fun a b => a.timestamp < b.timestamp) →
      ((s.rows.map Row.id) ++ qs.map effId).Nodup →
      (∀ r ∈ s.rows, ∀ q ∈ qs, r.timestamp < effTs q) →
      qs.Pairwise (fun a b => effTs a < effTs b) →
      s.rows.length ≤ MAX_MESSAGES_PER_CHANNEL →
      (runAppends s qs).rows =
        (s.rows ++ reqRows s.nextRowid qs).drop
          (s.rows.length + qs.length - MAX_MESSAGES_PER_CHANNEL) := by
  induction qs with
  | nil =>
    intro s sv ch hchs hrows hqs hsort hnodup hts hpair hlen
    simp only [runAppends, List.foldl_nil, reqRows, List.append_nil, List.length_nil,
      Nat.add_zero]
    rw [Nat.sub_eq_zero_of_le hlen, List.drop_zero]
  | cons q rest ih =>
    intro s sv ch hchs hrows hqs hsort hnodup hts hpair hlen
    obtain ⟨hqsv, hqch⟩ := hqs q (List.mem_cons_self _ _)
    have hch : getChannel s q.serverId q.channelId = true := by
      rw [getChannel, hchs, hqsv, hqch]
      simp
    have hstep := applyAppend_of_channel s q hch
    set newRow := reqRow q s.nextRowid with hnew
    have hnewch : newRow.channelId = ch := hqch
    have hnewts : newRow.timestamp = effTs q := rfl
    have hnewid : newRow.id = effId q := rfl
    have hcount1 : channelCount (s.rows ++ [newRow]) q.channelId = s.rows.length + 1 := by
      unfold channelCount
      rw [List.filter_append]
      have hl : s.rows.filter (fun r => r.channelId == q.channelId) = s.rows :=
        List.filter_eq_self.mpr
          (fun r hr => beq_iff_eq.mpr ((hrows r hr).trans hqch.symm))
      have hr : ([newRow].filter (fun r => r.channelId == q.channelId)) = [newRow] := by
        simp [hqch ▸ hnewch]
      rw [hl, hr, List.length_append, List.length_singleton]
    have hall1 : ∀ r ∈ s.rows ++ [newRow], r.channelId = ch := by
      intro r hr
      rcases List.mem_append.mp hr with hr | hr
      · exact hrows r hr
      · rw [List.mem_singleton.mp hr]
        exact hnewch
    have hsort1 : (s.rows ++ [newRow]).Pairwise (fun a b => a.timestamp < b.timestamp) := by
      rw [List.pairwise_append]
      refine ⟨hsort, List.pairwise_singleton _ _, ?_⟩
      intro a ha b hb
      rw [List.mem_singleton.mp hb, hnewts]
      exact hts a ha q (List.mem_cons_self _ _)
    have hn1 : ((s.rows ++ [newRow]).map Row.id) ++ rest.map effId =
        (s.rows.map Row.id) ++ (q :: rest).map effId := by
      rw [List.map_append, List.map_cons, List.append_assoc]
      rfl
    have hnodup1 : (((s.rows ++ [newRow]).map Row.id) ++ rest.map effId).Nodup := by
      rw [hn1]
      exact hnodup
    have hts1 : ∀ r ∈ s.rows ++ [newRow], ∀ p ∈ rest, r.timestamp < effTs p := by
      intro r hr p hp
      rcases List.mem_append.mp hr with hr | hr
      · exact hts r hr p (List.mem_cons_of_mem q hp)
      · rw [List.mem_singleton.mp hr, hnewts]
        exact (List.pairwise_cons.mp hpair).1 p hp
    have hqs1 : ∀ p ∈ rest, p.serverId = sv ∧ p.channelId = ch :=
      fun p hp => hqs p (List.mem_cons_of_mem q hp)
    have hpair1 : rest.Pairwise (fun a b => effTs a < effTs b) :=
      (List.pairwise_cons.mp hpair).2
    have hreq : reqRows s.nextRowid (q :: rest) = newRow :: reqRows (s.nextRowid + 1) rest :=
      rfl
    have hrun : (runAppends s (q :: rest)).rows = (runAppends (applyAppend s q) rest).rows :=
      rfl
    by_cases hfull : s.rows.length + 1 > MAX_MESSAGES_PER_CHANNEL
    · have hMAX : s.rows.length = MAX_MESSAGES_PER_CHANNEL := by omega
      have hidrows1 : ((s.rows ++ [newRow]).map Row.id).Nodup :=
        List.Nodup.of_append_left hnodup1
      have hrows2 : addMessageRows s.rows q.channelId newRow = (s.rows ++ [newRow]).tail := by
        simp only [addMessageRows]
        rw [hcount1, if_pos hfull]
        have hk : s.rows.length + 1 - MAX_MESSAGES_PER_CHANNEL = 1 := by omega
        rw [hk]
        refine pruneMessages_sorted_one _ q.channelId ?_ ?_ ?_
        · intro r hr
          exact (hall1 r hr).trans hqch.symm
        · exact hsort1.imp (fun hab => Or.inl hab)
        · exact hidrows1
      have hs1 : applyAppend s q =
          { s with rows := (s.rows ++ [newRow]).tail, nextRowid := s.nextRowid + 1 } := by
        rw [hstep, hrows2]
      have htail_sub : (s.rows ++ [newRow]).tail.Sublist (s.rows ++ [newRow]) :=
        List.tail_sublist _
      have hihres := ih ({ s with
          rows := (s.rows ++ [newRow]).tail,
          nextRowid := s.nextRowid + 1 }) sv ch hchs
        (fun r hr => hall1 r (htail_sub.mem hr))
        hqs1
        (hsort1.sublist htail_sub)
        (by
          have hmt : List.Sublist
              (((s.rows ++ [newRow]).tail.map Row.id) ++ rest.map effId)
              (((s.rows ++ [newRow]).map Row.id) ++ rest.map effId) :=
            List.Sublist.append_right (htail_sub.map Row.id) _
          exact hnodup1.sublist hmt)
        (fun r hr p hp => hts1 r (htail_sub.mem hr) p hp)
        hpair1
        (by
          rw [List.length_tail, List.length_append, List.length_singleton]
          omega)
      rw [hrun, hs1, hihres]
      have hne : (s.rows ++ [newRow]) ≠ [] := by
        intro hc
        have hlc := congrArg List.length hc
        rw [List.length_append, List.length_singleton] at hlc
        exact Nat.succ_ne_zero _ hlc
      have htl := @tail_append_of_ne_nil (s.rows ++ [newRow])
        (reqRows (s.nextRowid + 1) rest) hne
      rw [← htl]
      have hlen1 : (s.rows ++ [newRow]).tail.length = MAX_MESSAGES_PER_CHANNEL := by
        rw [List.length_tail, List.length_append, List.length_singleton]
        omega
      rw [hlen1]
      have harith : MAX_MESSAGES_PER_CHANNEL + rest.length - MAX_MESSAGES_PER_CHANNEL =
          rest.length := by omega
      rw [harith]
      rw [← List.drop_one, List.drop_drop]
      have htarget : s.rows ++ reqRows s.nextRowid (q :: rest) =
          (s.rows ++ [newRow]) ++ reqRows (s.nextRowid + 1) rest := by
        rw [hreq, List.append_cons]
      rw [htarget]
      have hidx : 1 + rest.length =
          s.rows.length + (q :: rest).length - MAX_MESSAGES_PER_CHANNEL := by
        simp only [List.length_cons]
        omega
      rw [← hidx]
    · have hrows2 : addMessageRows s.rows q.channelId newRow = s.rows ++ [newRow] := by
        simp only [addMessageRows]
        rw [hcount1, if_neg hfull]
      have hs1 : applyAppend s q =
          { s with rows := s.rows ++ [newRow], nextRowid := s.nextRowid + 1 } := by
        rw [hstep, hrows2]
      have hihres := ih ({ s with
          rows := s.rows ++ [newRow],
          nextRowid := s.nextRowid + 1 }) sv ch hchs hall1 hqs1 hsort1 hnodup1 hts1 hpair1
        (by
          rw [List.length_append, List.length_singleton]
          omega)
      rw [hrun, hs1, hihres]
      have htarget : s.rows ++ reqRows s.nextRowid (q :: rest) =
          (s.rows ++ [newRow]) ++ reqRows (s.nextRowid + 1) rest := by
        rw [hreq, List.append_cons]
      rw [htarget]
      have hidx : (s.rows ++ [newRow]).length + rest.length - MAX_MESSAGES_PER_CHANNEL =
          s.rows.length + (q :: rest).length - MAX_MESSAGES_PER_CHANNEL := by
        simp only [List.length_append, List.length_singleton, List.length_cons,
          List.length_nil]
        omega
      rw [hidx]

/-- C1 (amended): (a) starting from any store within the cap, after every
append every channel's stored count is at most `MAX_MESSAGES_PER_CHANNEL`;
(b) when all appends target one channel with strictly increasing effective
timestamps and pairwise-distinct effective ids (the server-assigned
behaviour), the retained rows are exactly the most recent
`min(n, maxRetention)` appended messages in insertion order — eviction
removes strictly the oldest first.  The original claim's unqualified
ordering part is false for client-supplied timestamps: eviction follows
timestamps, not insertion order (see the counterexample). -/
theorem store_retention_contract :
    (∀ (s : StoreState) (qs : List AppendReq) (c : Nat),
      (∀ ch, channelCount s.rows ch ≤ MAX_MESSAGES_PER_CHANNEL) →
      channelCount (runAppends s qs).rows c ≤ MAX_MESSAGES_PER_CHANNEL) ∧
    (∀ (qs : List AppendReq) (sv ch : Nat),
      (∀ q ∈ qs, q.serverId = sv ∧ q.channelId = ch) →
      qs.Pairwise (fun a b => effTs a < effTs b) →
      (qs.map effId).Nodup →
      (runAppends (initStore sv ch) qs).rows =
        (reqRows 0 qs).drop (qs.length - MAX_MESSAGES_PER_CHANNEL)) := by
  constructor
  · intro s qs c h
    exact runAppends_cap qs s h c
  · intro qs sv ch hq hpair hnodup
    have hres := runAppends_monotone_aux qs (initStore sv ch) sv ch rfl
      (by intro r hr; simp [initStore] at hr)
      hq
      List.Pairwise.nil
      (by simpa [initStore] using hnodup)
      (by intro r hr; simp [initStore] at hr)
      hpair
      (Nat.zero_le _)
    simpa [initStore] using hres

set_option maxRecDepth 40000 in
/-- C1 counterexample: 201 appends to channel (1,1), where the last append
carries a client-supplied timestamp older than all others (as
`store-message` permits).  The store retains 200 rows, but the retained
set is ids 0..199: the message of the 201st append (id 200) — part of the
most recent 200 by insertion order — was evicted, while the oldest by
insertion order (id 0) was retained, contradicting oldest-first eviction
by insertion order. -/
theorem store_retention_cex :
    (runAppends (initStore 1 1) cexQs).rows.length = 200 ∧
    200 ∉ (runAppends (initStore 1 1) cexQs).rows.map Row.id ∧
    0 ∈ (runAppends (initStore 1 1) cexQs).rows.map Row.id := by
  decide

/-- Witness for `store_retention_contract` at concrete inputs. -/
theorem store_retention_contract_witness :
    channelCount (runAppends (initStore 1 1)
      [⟨1, 1, some 10, some 5, 0, 0⟩]).rows 1 ≤ MAX_MESSAGES_PER_CHANNEL ∧
    (runAppends (initStore 1 1)
        [⟨1, 1, some 10, some 5, 0, 0⟩, ⟨1, 1, some 11, some 6, 0, 0⟩]).rows =
      (reqRows 0 [⟨1, 1, some 10, some 5, 0, 0⟩, ⟨1, 1, some 11, some 6, 0, 0⟩]).drop
        (([⟨1, 1, some 10, some 5, 0, 0⟩, ⟨1, 1, some 11, some 6, 0, 0⟩] :
          List AppendReq).length - MAX_MESSAGES_PER_CHANNEL) :=
  ⟨store_retention_contract.1 (initStore 1 1) [⟨1, 1, some 10, some 5, 0, 0⟩] 1
      (fun _ => Nat.zero_le _),
   store_retention_contract.2
      [⟨1, 1, some 10, some 5, 0, 0⟩, ⟨1, 1, some 11, some 6, 0, 0⟩] 1 1
      (by decide) (by decide) (by decide)⟩

/-! ### C2: multi-connection presence -/

theorem lookupA_removeA_ne {α β : Type} [DecidableEq α] (m : List (α × β)) (k k' : α)
    (h : k' ≠ k) : lookupA (removeA m k) k' = lookupA m k' := by
  induction m with
  | nil => rfl
  | cons p rest ih =>
    obtain ⟨pk, pv⟩ := p
    by_cases hp : pk = k
    · subst hp
      have h1 : removeA ((pk, pv) :: rest) pk = removeA rest pk := by
        simp [removeA]
      rw [h1, ih]
      simp only [lookupA]
      rw [if_neg (fun he => h he.symm)]
    · have h1 : removeA ((pk, pv) :: rest) k = (pk, pv) :: removeA rest k := by
        simp [removeA, hp]
      rw [h1]
      by_cases hp' : pk = k'
      · simp [lookupA, hp']
      · simp only [lookupA, if_neg hp']
        exact ih

theorem memWF_spec (st : ServerState) (hwf : memWF st = true) :
    ∀ p ∈ st.channelMembers, ∀ q ∈ p.2, ∀ sid ∈ q.2, ∀ c,
      st.conns.find? (fun c => c.sockId == sid) = some c → c.userId = q.1 := by
  intro p hp q hq sid hsid c hc
  unfold memWF at hwf
  rw [List.all_eq_true] at hwf
  have h1 := hwf p hp
  rw [List.all_eq_true] at h1
  have h2 := h1 q hq
  rw [List.all_eq_true] at h2
  have h3 := h2 sid hsid
  rw [hc] at h3
  exact beq_iff_eq.mp h3

theorem firstProfile_mem (st : ServerState) :
    ∀ (socks : List Nat) (m : Member), firstProfile st socks = some m →
      ∃ sid ∈ socks, memberProfile st sid = some m := by
  intro socks
  induction socks with
  | nil => intro m hm; exact absurd hm (by simp [firstProfile])
  | cons sid rest ih =>
    intro m hm
    unfold firstProfile at hm
    cases hp : memberProfile st sid with
    | some m0 =>
      rw [hp] at hm
      exact ⟨sid, List.mem_cons_self _ _, hp.trans hm⟩
    | none =>
      rw [hp] at hm
      obtain ⟨sid', hsid', hm'⟩ := ih m hm
      exact ⟨sid', List.mem_cons_of_mem _ hsid', hm'⟩

theorem presenceEntry_userId (st : ServerState) (uid : Nat) (socks : List Nat)
    (h : ∀ sid ∈ socks, ∀ c, st.conns.find? (fun c => c.sockId == sid) = some c →
      c.userId = uid) :
    ∃ m, presenceEntry st uid socks = some m ∧ m.userId = uid := by
  unfold presenceEntry
  cases hfp : firstProfile st socks with
  | none => exact ⟨_, rfl, rfl⟩
  | some m =>
    obtain ⟨sid, hsid, hm⟩ := firstProfile_mem st socks m hfp
    unfold memberProfile at hm
    cases hc : connOf st sid with
    | none =>
      rw [hc] at hm
      exact absurd hm (by simp)
    | some c =>
      rw [hc] at hm
      have hmval : m = ⟨sid, c.userId⟩ := (Option.some.inj hm).symm
      refine ⟨m, rfl, ?_⟩
      rw [hmval]
      exact h sid hsid c hc

theorem filterMap_presence (st : ServerState) (um : List (Nat × List Nat))
    (h : ∀ q ∈ um, ∀ sid ∈ q.2, ∀ c,
      st.conns.find? (fun c => c.sockId == sid) = some c → c.userId = q.1) :
    (um.filterMap (fun p => presenceEntry st p.1 p.2)).map Member.userId =
      um.map Prod.fst := by
  induction um with
  | nil => rfl
  | cons q rest ih =>
    obtain ⟨m, hm, hmu⟩ := presenceEntry_userId st q.1 q.2
      (h q (List.mem_cons_self _ _))
    rw [List.filterMap_cons, hm, List.map_cons, hmu, List.map_cons]
    rw [ih (fun q' hq' => h q' (List.mem_cons_of_mem _ hq'))]

theorem leaveRoomCore_other (mem : Membership) (r room : RoomKey) (uid sid : Nat)
    (h : r ≠ room) :
    lookupA (leaveRoomCore mem r uid sid).1 room = lookupA mem room := by
  unfold leaveRoomCore
  cases hum : lookupA mem r with
  | none => rfl
  | some um =>
    simp only
    cases hus : lookupA um uid with
    | none =>
      simp only
      by_cases he : um.isEmpty
      · rw [if_pos he]
        exact lookupA_removeA_ne mem r room (Ne.symm h)
      · rw [if_neg he]
        exact lookupA_setA_ne mem r room _ (Ne.symm h)
    | some socks =>
      simp only
      by_cases hse : (socks.filter (fun s => decide (s ≠ sid))).isEmpty
      · rw [if_pos hse]
        by_cases he : (removeA um uid).isEmpty
        · rw [if_pos he]
          exact lookupA_removeA_ne mem r room (Ne.symm h)
        · rw [if_neg he]
          exact lookupA_setA_ne mem r room _ (Ne.symm h)
      · rw [if_neg hse]
        by_cases he : (setA um uid (socks.filter (fun s => decide (s ≠ sid)))).isEmpty
        · rw [if_pos he]
          exact lookupA_removeA_ne mem r room (Ne.symm h)
        · rw [if_neg he]
          exact lookupA_setA_ne mem r room _ (Ne.symm h)

theorem leaveRoom_other_room (st : ServerState) (sid : Nat) (reason : String)
    (room : RoomKey)
    (h : ∀ c, connOf st sid = some c → c.currentRoom ≠ some room) :
    lookupA (leaveRoom st sid reason).1.channelMembers room =
      lookupA st.channelMembers room := by
  cases hc : connOf st sid with
  | none => simp only [leaveRoom, hc]
  | some c =>
    cases hr : c.currentRoom with
    | none => simp only [leaveRoom, hc, hr]
    | some r =>
      simp only [leaveRoom, hc, hr]
      have hne : r ≠ room := by
        intro he
        exact h c hc (hr.trans (by rw [he]))
      exact leaveRoomCore_other st.channelMembers r room c.userId sid hne

theorem leaveRoom_no_userJoined (st : ServerState) (sid : Nat) (reason : String) :
    ∀ rm user r',
      Ev.channelEvent rm EvType.userJoined user r' ∉ (leaveRoom st sid reason).2 := by
  intro rm user r' hin
  cases hc : connOf st sid with
  | none =>
    simp only [leaveRoom, hc] at hin
    exact List.not_mem_nil _ hin
  | some c =>
    cases hr : c.currentRoom with
    | none =>
      simp only [leaveRoom, hc, hr] at hin
      exact List.not_mem_nil _ hin
    | some r =>
      simp only [leaveRoom, hc, hr] at hin
      rcases List.mem_append.mp hin with hin | hin
      · cases hres : (leaveRoomCore st.channelMembers r c.userId sid).2 with
        | true =>
          rw [hres] at hin
          cases hp : memberProfile st sid with
          | some p =>
            rw [hp] at hin
            simp only [List.mem_singleton] at hin
            exact EvType.noConfusion (Ev.channelEvent.inj hin).2.1
          | none =>
            rw [hp] at hin
            simp at hin
        | false =>
          rw [hres] at hin
          cases memberProfile st sid <;> simp at hin
      · simp only [List.mem_cons, List.mem_singleton, List.not_mem_nil, or_false] at hin
        rcases hin with hin | hin <;> exact Ev.noConfusion hin

/-- C2: for a user `u` with a connection `x` already in the room and a
second connection `y` of the same user elsewhere: (1) the presence
snapshot lists `u` exactly once; (2) `y`'s join-channel emits no
`user-joined` channel-event; (3) leaving from a connection `x` emits
`user-left` if and only if it removes `u`'s last remaining connection from
the room (the user's socket set becomes empty). -/
theorem presence_multiconnection_contract
    (st : ServerState) (sv ch u x y : Nat) (cx cy : Conn)
    (um : List (Nat × List Nat)) (socks : List Nat)
    (hsv : sv ≠ 0) (hch : ch ≠ 0)
    (hwf : memWF st = true)
    (hkeys : ∀ p ∈ st.channelMembers, (p.2.map Prod.fst).Nodup)
    (hum : lookupA st.channelMembers (roomKey sv ch) = some um)
    (husocks : lookupA um u = some socks)
    (hx : x ∈ socks)
    (hcx : connOf st x = some cx)
    (hcxroom : cx.currentRoom = some (roomKey sv ch))
    (hcy : connOf st y = some cy)
    (hcyu : cy.userId = u)
    (hcyroom : cy.currentRoom ≠ some (roomKey sv ch))
    (hchan : getChannel st.store sv ch = true) :
    ((getPresenceMembers st (roomKey sv ch)).map Member.userId).count u = 1 ∧
    (∀ rm user reason,
      Ev.channelEvent rm EvType.userJoined user reason ∉ (joinChannel st y sv ch).2.1) ∧
    ((∃ user reason, Ev.channelEvent (roomKey sv ch) EvType.userLeft user reason ∈
        (leaveRoom st x "left").2) ↔
      socks.filter (fun s => decide (s ≠ x)) = []) := by
  have humem : (roomKey sv ch, um) ∈ st.channelMembers := lookupA_mem hum
  have husmem : (u, socks) ∈ um := lookupA_mem husocks
  have hcxu : cx.userId = u :=
    memWF_spec st hwf _ humem _ husmem x hx cx hcx
  refine ⟨?_, ?_, ?_⟩
  · unfold getPresenceMembers
    rw [hum, filterMap_presence st um
      (fun q hq => memWF_spec st hwf _ humem q hq)]
    exact List.count_eq_one_of_mem (hkeys _ humem)
      (List.mem_map_of_mem Prod.fst husmem)
  · intro rm user reason hin
    have hfals : (sv == 0 || ch == 0) = false := by simp [hsv, hch]
    simp only [joinChannel, hfals, Bool.false_eq_true, if_false, hchan,
      Bool.true_eq_false, hcy] at hin
    rw [if_neg hcyroom] at hin
    have hother : ∀ c, connOf st y = some c → c.currentRoom ≠ some (roomKey sv ch) := by
      intro c hc
      rw [Option.some.inj (hc.symm.trans hcy)]
      exact hcyroom
    have hpres : lookupA (leaveRoom st y "moved").1.channelMembers (roomKey sv ch) =
        some um := by
      rw [leaveRoom_other_room st y "moved" (roomKey sv ch) hother]
      exact hum
    rw [hpres] at hin
    simp only [Option.getD_some, hcyu, husocks] at hin
    have hne : socks ≠ [] := List.ne_nil_of_mem hx
    have hempty : socks.isEmpty = false := by
      cases socks with
      | nil => exact absurd rfl hne
      | cons a t => rfl
    rw [hempty] at hin
    simp only [List.append_nil, List.nil_append] at hin
    rcases List.mem_append.mp hin with hin | hin
    · exact leaveRoom_no_userJoined st y "moved" rm user reason hin
    · simp only [List.mem_singleton] at hin
      exact Ev.noConfusion hin
  · simp only [leaveRoom, hcx, hcxroom, hcxu, leaveRoomCore, hum, husocks,
      memberProfile, hcx]
    by_cases hse : (socks.filter (fun s => decide (s ≠ x))).isEmpty
    · rw [if_pos hse]
      simp only
      constructor
      · intro _
        cases hfl : socks.filter (fun s => decide (s ≠ x)) with
        | nil => rfl
        | cons a t =>
          rw [hfl] at hse
          exact Bool.noConfusion hse
      · intro _
        exact ⟨⟨x, u⟩, some "left", List.mem_append.mpr (Or.inl (List.mem_singleton.mpr rfl))⟩
    · rw [if_neg hse]
      simp only
      constructor
      · rintro ⟨user, reason, hin⟩
        simp only [List.nil_append, List.mem_cons, List.mem_singleton,
          List.not_mem_nil, or_false] at hin
        rcases hin with hin | hin <;> exact Ev.noConfusion hin
      · intro hfl
        rw [hfl] at hse
        exact absurd rfl hse

/-- Witness for `presence_multiconnection_contract`: user 10 has sockets 1
and 2 in room (1,1) and a third socket 3 not yet joined; socket 4 is user
20. -/
theorem presence_multiconnection_contract_witness :
    ((getPresenceMembers twoConnState (roomKey 1 1)).map Member.userId).count 10 = 1 ∧
    (∀ rm user reason,
      Ev.channelEvent rm EvType.userJoined user reason ∉ (joinChannel twoConnState 3 1 1).2.1) ∧
    ((∃ user reason, Ev.channelEvent (roomKey 1 1) EvType.userLeft user reason ∈
        (leaveRoom twoConnState 1 "left").2) ↔
      ([1, 2] : List Nat).filter (fun s => decide (s ≠ 1)) = []) :=
  presence_multiconnection_contract twoConnState 1 1 10 1 3
    ⟨1, 10, some (1, 1)⟩ ⟨3, 10, none⟩ [(10, [1, 2]), (20, [4])] [1, 2]
    (by decide) (by decide) (by decide) (by decide) (by decide) (by decide)
    (by decide) (by decide) (by decide) (by decide) (by decide) (by decide)
    (by decide)

end ChatClient
